import Mathlib

/-!
Verification of the motion-adaptive temporal windowing and enhancement
pipeline of the child-safety video-analysis server.

Python floats are modelled as exact rationals (ℚ); the properties checked
here are about the arithmetic structure of the algorithms, which the spec
states in real-number terms.  Python `int()` truncation toward zero is
modelled by `pyInt`.
-/

/-- Python `int(q)`: truncation toward zero. -/
def pyInt (q : ℚ) : ℤ :=
  if q < 0 then -(Int.floor (-q)) else Int.floor q

/-! Section: Configuration constants (src/config.py) -/

def FRAMES_PER_SECOND : ℕ := 8
def ANALYSIS_WINDOW_SECONDS : ℚ := 2
def MOTION_GAP_THRESHOLD : ℚ := 3/10
def MINIMUM_MOTION_DENSITY : ℚ := 1/8
def HIGH_MOTION_THRESHOLD : ℚ := 12
def HIGH_MOTION_SPLIT_WINDOW_SIZE : ℚ := 1
def HIGH_MOTION_SPLIT_FPS : ℕ := 16
def MOTION_PERSISTENCE_FRAMES : ℕ := 2

/-! Section: Data model: AnalysisWindow (the dicts built in src/motion_grouper.py)

`parent_window` in the source is the formatted string
`f"{window_start:.2f}s-{window_end:.2f}s"`; we keep the underlying pair of
rationals rather than its decimal rendering. -/

structure AnalysisWindow where
  start_time : ℚ
  end_time : ℚ
  motion_density : ℚ
  motion_duration : ℚ
  motion_count : ℕ
  motion_intensity : ℚ
  is_split_window : Bool
  sampling_fps : ℕ
  parent_window : Option (ℚ × ℚ)
deriving DecidableEq, Repr

/-! Section: MotionGrouper (src/motion_grouper.py)

The constructor takes `gap_threshold`, `window_seconds`, `min_motion_density`
as parameters (defaulting to the config constants); the high-motion splitting
configuration is always read from config. -/

structure MotionGrouper where
  gap_threshold : ℚ
  window_seconds : ℚ
  min_motion_density : ℚ
  high_motion_threshold : ℚ
  split_window_size : ℚ
  split_fps : ℕ

/-- Source: `MotionGrouper(gap_threshold, window_seconds, min_motion_density)`:
the three constructor parameters, high-motion settings from config. -/
def MotionGrouper.make (gap window dmin : ℚ) : MotionGrouper :=
  { gap_threshold := gap
    window_seconds := window
    min_motion_density := dmin
    high_motion_threshold := HIGH_MOTION_THRESHOLD
    split_window_size := HIGH_MOTION_SPLIT_WINDOW_SIZE
    split_fps := HIGH_MOTION_SPLIT_FPS }

/-- Source: `MotionGrouper()` with every constructor default. -/
def defaultGrouper : MotionGrouper :=
  MotionGrouper.make MOTION_GAP_THRESHOLD ANALYSIS_WINDOW_SECONDS MINIMUM_MOTION_DENSITY

/-- Python `sorted` (a stable sort; modelled by insertion sort, which is
also stable). -/
def insertSorted (x : ℚ) : List ℚ → List ℚ
  | [] => [x]
  | y :: ys => if x ≤ y then x :: y :: ys else y :: insertSorted x ys

def pySorted : List ℚ → List ℚ
  | [] => []
  | x :: xs => insertSorted x (pySorted xs)

/-- Source: `group_motion_timestamps` inner loop (lines 34-45): fold the sorted tail,
extending or closing segments. -/
def groupSegsLoop (gap : ℚ) : List ℚ → List (ℚ × ℚ) → ℚ → ℚ → List (ℚ × ℚ)
  | [], segs, s, e => segs ++ [(s, e)]
  | t :: ts, segs, s, e =>
    if t - e ≤ gap then groupSegsLoop gap ts segs s t
    else groupSegsLoop gap ts (segs ++ [(s, e)]) t t

/-- Source: `MotionGrouper.group_motion_timestamps` (src/motion_grouper.py lines 19-52). -/
def MotionGrouper.group_motion_timestamps (g : MotionGrouper)
    (motion_timestamps : List ℚ) : List (ℚ × ℚ) :=
  match pySorted motion_timestamps with
  | [] => []
  | t0 :: rest => groupSegsLoop g.gap_threshold rest [] t0 t0

/-- Source: `motion_in_window = [t for t in motion_timestamps if a <= t <= b]`,
counted: the number of timestamps falling in `[a, b]`, both ends inclusive
(src/motion_grouper.py lines 75-82 and 146-151). -/
def windowMotionCount (ts : List ℚ) (a b : ℚ) : ℕ :=
  (ts.filter (fun t => a ≤ t ∧ t ≤ b)).length

/-- Source: `estimated_motion_duration = min(motion_count * 0.1, window_seconds)`
(line 83). -/
def MotionGrouper.estimatedDuration (g : MotionGrouper) (count : ℕ) : ℚ :=
  min ((count : ℚ) * (1/10)) g.window_seconds

/-- Source: `motion_density = estimated_motion_duration / window_seconds` (line 84). -/
def MotionGrouper.density (g : MotionGrouper) (count : ℕ) : ℚ :=
  g.estimatedDuration count / g.window_seconds

/-- Source: `motion_intensity = motion_count / window_seconds` (line 87). -/
def MotionGrouper.intensity (g : MotionGrouper) (count : ℕ) : ℚ :=
  (count : ℚ) / g.window_seconds

/-- Source: `sub_motion_duration = min(sub_motion_count * 0.1, split_window_size)`
(line 152). -/
def MotionGrouper.subDuration (g : MotionGrouper) (count : ℕ) : ℚ :=
  min ((count : ℚ) * (1/10)) g.split_window_size

/-- Source: `sub_motion_density = sub_motion_duration / split_window_size` (line 153). -/
def MotionGrouper.subDensity (g : MotionGrouper) (count : ℕ) : ℚ :=
  g.subDuration count / g.split_window_size

/-- Source: `sub_motion_intensity = sub_motion_count / split_window_size` (line 154). -/
def MotionGrouper.subIntensity (g : MotionGrouper) (count : ℕ) : ℚ :=
  (count : ℚ) / g.split_window_size

/-- The `i`-th sub-window built by `_create_split_windows`
(src/motion_grouper.py lines 141-166). -/
def MotionGrouper.subWindow (g : MotionGrouper) (window_start window_end : ℚ)
    (motion_timestamps : List ℚ) (i : ℕ) : AnalysisWindow :=
  { start_time := window_start + i * g.split_window_size
    end_time := min (window_start + i * g.split_window_size + g.split_window_size) window_end
    motion_density := g.subDensity (windowMotionCount motion_timestamps
      (window_start + i * g.split_window_size)
      (min (window_start + i * g.split_window_size + g.split_window_size) window_end))
    motion_duration := g.subDuration (windowMotionCount motion_timestamps
      (window_start + i * g.split_window_size)
      (min (window_start + i * g.split_window_size + g.split_window_size) window_end))
    motion_count := windowMotionCount motion_timestamps
      (window_start + i * g.split_window_size)
      (min (window_start + i * g.split_window_size + g.split_window_size) window_end)
    motion_intensity := g.subIntensity (windowMotionCount motion_timestamps
      (window_start + i * g.split_window_size)
      (min (window_start + i * g.split_window_size + g.split_window_size) window_end))
    is_split_window := true
    sampling_fps := g.split_fps
    parent_window := some (window_start, window_end) }

/-- Source: `_create_split_windows` (src/motion_grouper.py lines 131-170):
`num_splits = int(total_duration / split_window_size)` sub-windows. -/
def MotionGrouper.create_split_windows (g : MotionGrouper)
    (window_start window_end : ℚ) (motion_timestamps : List ℚ) :
    List AnalysisWindow :=
  (List.range ((pyInt ((window_end - window_start) / g.split_window_size)).toNat)).map
    (g.subWindow window_start window_end motion_timestamps)

/-- The normal (non-split) window appended at lines 102-111. -/
def MotionGrouper.normalWindow (g : MotionGrouper) (motion_timestamps : List ℚ)
    (window_start : ℚ) : AnalysisWindow :=
  { start_time := window_start
    end_time := window_start + g.window_seconds
    motion_density := g.density (windowMotionCount motion_timestamps
      window_start (window_start + g.window_seconds))
    motion_duration := g.estimatedDuration (windowMotionCount motion_timestamps
      window_start (window_start + g.window_seconds))
    motion_count := windowMotionCount motion_timestamps
      window_start (window_start + g.window_seconds)
    motion_intensity := g.intensity (windowMotionCount motion_timestamps
      window_start (window_start + g.window_seconds))
    is_split_window := false
    sampling_fps := FRAMES_PER_SECOND
    parent_window := none }

/-- One iteration of the candidate-window loop of `create_analysis_windows`
(src/motion_grouper.py lines 70-118), at `window_start = processed_time`:
score the candidate window and emit nothing (rejected, line 113), the normal
window (line 102), or the split sub-windows (line 97). -/
def MotionGrouper.windowBody (g : MotionGrouper) (motion_timestamps : List ℚ)
    (window_start : ℚ) : List AnalysisWindow :=
  if g.min_motion_density ≤ g.density (windowMotionCount motion_timestamps
      window_start (window_start + g.window_seconds)) then
    if g.high_motion_threshold ≤ g.intensity (windowMotionCount motion_timestamps
        window_start (window_start + g.window_seconds)) then
      g.create_split_windows window_start (window_start + g.window_seconds)
        motion_timestamps
    else [g.normalWindow motion_timestamps window_start]
  else []

/-- Number of iterations of the tiling loop
`while processed_time + window_seconds <= video_duration` with
`processed_time` starting at `0.0` and advancing by `window_seconds`:
at iteration `k` we have `processed_time = k * window_seconds`, and the
guard `(k+1) * W ≤ D` holds exactly for `k < ⌊D / W⌋` when `0 < W`
(the loop does not terminate for `W ≤ 0`; the config value is `2`). -/
def MotionGrouper.numWindows (g : MotionGrouper) (video_duration : ℚ) : ℕ :=
  if 0 < g.window_seconds then (Int.floor (video_duration / g.window_seconds)).toNat
  else 0

/-- Source: `MotionGrouper.create_analysis_windows` (src/motion_grouper.py lines
54-129) in its primary, timestamp-density mode (`motion_timestamps` given):
sort the timestamps, then run the candidate-window tiling loop. -/
def MotionGrouper.create_analysis_windows (g : MotionGrouper)
    (motion_timestamps : List ℚ) (video_duration : ℚ) : List AnalysisWindow :=
  let ts := pySorted motion_timestamps
  (List.range (g.numWindows video_duration)).flatMap
    (fun k => g.windowBody ts (k * g.window_seconds))

/-! Section: Supporting lemmas about the window builder -/

theorem insertSorted_perm (x : ℚ) (l : List ℚ) : (insertSorted x l).Perm (x :: l) := by
  induction l with
  | nil => simp [insertSorted]
  | cons y ys ih =>
    simp only [insertSorted]
    split
    · exact List.Perm.refl _
    · exact ((ih.cons y).trans (List.Perm.swap x y ys))

theorem pySorted_perm (l : List ℚ) : (pySorted l).Perm l := by
  induction l with
  | nil => simp [pySorted]
  | cons x xs ih => exact (insertSorted_perm x (pySorted xs)).trans (ih.cons x)

theorem windowMotionCount_pySorted (ts : List ℚ) (a b : ℚ) :
    windowMotionCount (pySorted ts) a b = windowMotionCount ts a b :=
  ((pySorted_perm ts).filter _).length_eq

/-- For `0 < total` and `0 < s`, `int(total / s)` is `⌊total / s⌋`. -/
theorem pyInt_of_nonneg (q : ℚ) (hq : 0 ≤ q) : pyInt q = Int.floor q := by
  simp [pyInt, not_lt.2 hq]

theorem splitNum_mul_le (g : MotionGrouper) (hs : 0 < g.split_window_size)
    (i : ℕ) (hi : i < (pyInt (g.window_seconds / g.split_window_size)).toNat) :
    ((i : ℚ) + 1) * g.split_window_size ≤ g.window_seconds := by
  rcases le_or_lt 0 (g.window_seconds / g.split_window_size) with hq | hq
  · rw [pyInt_of_nonneg _ hq] at hi
    have hfl : ((i : ℤ) + 1) ≤ ⌊g.window_seconds / g.split_window_size⌋ := by omega
    have h2 : ((i : ℚ) + 1) ≤ g.window_seconds / g.split_window_size := by
      exact_mod_cast Int.le_floor.1 hfl
    calc ((i : ℚ) + 1) * g.split_window_size
        ≤ (g.window_seconds / g.split_window_size) * g.split_window_size :=
          mul_le_mul_of_nonneg_right h2 (le_of_lt hs)
      _ = g.window_seconds := div_mul_cancel₀ _ (ne_of_gt hs)
  · exfalso
    have hle : pyInt (g.window_seconds / g.split_window_size) ≤ 0 := by
      simp only [pyInt, if_pos hq]
      have h0 : (0:ℤ) ≤ ⌊-(g.window_seconds / g.split_window_size)⌋ :=
        Int.le_floor.2 (by push_cast; linarith)
      omega
    omega

theorem subWindow_end_eq (g : MotionGrouper) (hs : 0 < g.split_window_size)
    (window_start : ℚ) (ts : List ℚ) (i : ℕ)
    (hi : i < (pyInt (g.window_seconds / g.split_window_size)).toNat) :
    (g.subWindow window_start (window_start + g.window_seconds) ts i).end_time =
      window_start + ((i : ℚ) + 1) * g.split_window_size := by
  have h := splitNum_mul_le g hs i hi
  simp only [MotionGrouper.subWindow]
  rw [min_eq_left (by linarith [h])]
  ring

/-- Location and shape bounds for every window emitted for the candidate
window starting at `s`: its time range sits inside `[s, s + W)` × `(s, s+W]`. -/
theorem mem_windowBody_bounds (g : MotionGrouper)
    (hW : 0 < g.window_seconds) (hs : 0 < g.split_window_size)
    {ts : List ℚ} {s : ℚ} {w : AnalysisWindow} (hw : w ∈ g.windowBody ts s) :
    s ≤ w.start_time ∧ w.start_time < s + g.window_seconds ∧
      w.start_time ≤ w.end_time ∧ w.end_time ≤ s + g.window_seconds := by
  unfold MotionGrouper.windowBody at hw
  split at hw
  · split at hw
    · unfold MotionGrouper.create_split_windows at hw
      obtain ⟨i, hi, rfl⟩ := List.mem_map.1 hw
      rw [List.mem_range, add_sub_cancel_left] at hi
      have hle := splitNum_mul_le g hs i hi
      have hend := subWindow_end_eq g hs s ts i hi
      have hstart : (g.subWindow s (s + g.window_seconds) ts i).start_time =
          s + (i : ℚ) * g.split_window_size := rfl
      rw [hstart, hend]
      have h0 : (0:ℚ) ≤ (i : ℚ) * g.split_window_size :=
        mul_nonneg (Nat.cast_nonneg i) (le_of_lt hs)
      refine ⟨by linarith, by nlinarith, by nlinarith, by nlinarith⟩
    · rw [List.mem_singleton] at hw
      subst hw
      refine ⟨le_refl _, by simpa [MotionGrouper.normalWindow] using hW,
        by simpa [MotionGrouper.normalWindow] using (le_of_lt hW), le_refl _⟩
  · simp at hw

/-- Non-split windows come out of the normal branch: they span exactly one
base window. -/
theorem mem_windowBody_normal (g : MotionGrouper)
    {ts : List ℚ} {s : ℚ} {w : AnalysisWindow} (hw : w ∈ g.windowBody ts s)
    (hn : w.is_split_window = false) :
    w = g.normalWindow ts s := by
  unfold MotionGrouper.windowBody at hw
  split at hw
  · split at hw
    · exfalso
      unfold MotionGrouper.create_split_windows at hw
      obtain ⟨i, _, rfl⟩ := List.mem_map.1 hw
      simp [MotionGrouper.subWindow] at hn
    · simpa using hw
  · simp at hw

/-- The windows emitted for one candidate window are ordered and
non-overlapping among themselves. -/
theorem windowBody_pairwise (g : MotionGrouper)
    (hs : 0 < g.split_window_size) (ts : List ℚ) (s : ℚ) :
    (g.windowBody ts s).Pairwise (fun a b => a.end_time ≤ b.start_time) := by
  unfold MotionGrouper.windowBody
  split
  · split
    · unfold MotionGrouper.create_split_windows
      rw [List.pairwise_map]
      refine (List.pairwise_lt_range _).imp_of_mem ?_
      intro i j hi hj hij
      rw [List.mem_range, add_sub_cancel_left] at hi hj
      rw [subWindow_end_eq g hs s ts i hi]
      have : ((i:ℚ) + 1) * g.split_window_size ≤ (j:ℚ) * g.split_window_size := by
        have : ((i:ℚ) + 1) ≤ (j:ℚ) := by exact_mod_cast hij
        exact mul_le_mul_of_nonneg_right this (le_of_lt hs)
      show _ ≤ (g.subWindow s (s + g.window_seconds) ts j).start_time
      simp only [MotionGrouper.subWindow]
      linarith
    · simp
  · simp

/-- Membership in the full output decomposes per candidate window. -/
theorem mem_create_analysis_windows (g : MotionGrouper)
    {ts : List ℚ} {D : ℚ} {w : AnalysisWindow} :
    w ∈ g.create_analysis_windows ts D ↔
      ∃ k < g.numWindows D, w ∈ g.windowBody (pySorted ts) ((k : ℚ) * g.window_seconds) := by
  unfold MotionGrouper.create_analysis_windows
  simp [List.mem_flatMap]

/-- The whole output list is ordered and non-overlapping. -/
theorem create_analysis_windows_pairwise (g : MotionGrouper)
    (hW : 0 < g.window_seconds) (hs : 0 < g.split_window_size)
    (ts : List ℚ) (D : ℚ) :
    (g.create_analysis_windows ts D).Pairwise
      (fun a b => a.end_time ≤ b.start_time) := by
  unfold MotionGrouper.create_analysis_windows
  induction g.numWindows D with
  | zero => simp
  | succ n ih =>
    rw [List.range_succ, List.flatMap_append]
    rw [List.pairwise_append]
    refine ⟨ih, by simpa using windowBody_pairwise g hs _ _, ?_⟩
    intro a ha b hb
    rw [List.mem_flatMap] at ha
    obtain ⟨k, hk, hak⟩ := ha
    rw [List.mem_range] at hk
    simp only [List.flatMap_cons, List.flatMap_nil, List.append_nil] at hb
    have hba := mem_windowBody_bounds g hW hs hak
    have hbb := mem_windowBody_bounds g hW hs hb
    have h1 : a.end_time ≤ ((k:ℚ) + 1) * g.window_seconds := by
      have := hba.2.2.2
      linarith [this]
    have h2 : ((n:ℚ)) * g.window_seconds ≤ b.start_time := hbb.1
    have h3 : ((k:ℚ) + 1) ≤ (n:ℚ) := by exact_mod_cast hk
    have : ((k:ℚ) + 1) * g.window_seconds ≤ (n:ℚ) * g.window_seconds :=
      mul_le_mul_of_nonneg_right h3 (le_of_lt hW)
    linarith

/-- Every emitted window ends inside the tiled region
`[0, W * ⌊D / W⌋]`, in particular no later than the video duration: the
final partial window is dropped. -/
theorem create_analysis_windows_end_le (g : MotionGrouper)
    (hW : 0 < g.window_seconds) (hs : 0 < g.split_window_size)
    {ts : List ℚ} {D : ℚ} {w : AnalysisWindow}
    (hw : w ∈ g.create_analysis_windows ts D) :
    w.end_time ≤ (g.numWindows D : ℚ) * g.window_seconds ∧ w.end_time ≤ D := by
  obtain ⟨k, hk, hwk⟩ := (mem_create_analysis_windows g).1 hw
  have hb := mem_windowBody_bounds g hW hs hwk
  have h1 : w.end_time ≤ ((k:ℚ) + 1) * g.window_seconds := by
    have := hb.2.2.2
    linarith
  have h3 : ((k:ℚ) + 1) ≤ (g.numWindows D : ℚ) := by exact_mod_cast hk
  have h4 : ((k:ℚ) + 1) * g.window_seconds ≤ (g.numWindows D : ℚ) * g.window_seconds :=
    mul_le_mul_of_nonneg_right h3 (le_of_lt hW)
  refine ⟨by linarith, ?_⟩
  have h5 : ((g.numWindows D : ℚ)) * g.window_seconds ≤ D := by
    have hpos : 0 < g.numWindows D := Nat.lt_of_le_of_lt (Nat.zero_le k) hk
    unfold MotionGrouper.numWindows at hpos ⊢
    rw [if_pos hW] at hpos ⊢
    have hfl : (0:ℤ) ≤ ⌊D / g.window_seconds⌋ := by omega
    have h6 : ((⌊D / g.window_seconds⌋.toNat : ℤ) : ℚ) ≤ D / g.window_seconds := by
      rw [Int.toNat_of_nonneg hfl]
      exact Int.floor_le _
    calc ((⌊D / g.window_seconds⌋.toNat : ℕ) : ℚ) * g.window_seconds
        ≤ (D / g.window_seconds) * g.window_seconds := by
          refine mul_le_mul_of_nonneg_right ?_ (le_of_lt hW)
          exact_mod_cast h6
      _ = D := div_mul_cancel₀ _ (ne_of_gt hW)
  linarith

theorem defaultGrouper_window_seconds : defaultGrouper.window_seconds = 2 := rfl

theorem defaultGrouper_split_window_size : defaultGrouper.split_window_size = 1 := rfl

theorem defaultGrouper_window_pos : 0 < defaultGrouper.window_seconds := by
  rw [defaultGrouper_window_seconds]; norm_num

theorem defaultGrouper_split_pos : 0 < defaultGrouper.split_window_size := by
  rw [defaultGrouper_split_window_size]; norm_num

/-- The C1 tiling invariants of the window builder's output, for a given
input.  `Pairwise (end_time ≤ start_time)` together with
`start_time ≤ end_time` says the list is ordered by ascending `start_time`
with pairwise disjoint interiors. -/
def WindowTilingInvariants (ts : List ℚ) (D : ℚ) : Prop :=
  (defaultGrouper.create_analysis_windows ts D).Pairwise
      (fun a b => a.end_time ≤ b.start_time) ∧
  (∀ w ∈ defaultGrouper.create_analysis_windows ts D,
      w.start_time ≤ w.end_time) ∧
  (∀ w ∈ defaultGrouper.create_analysis_windows ts D, w.end_time ≤ D) ∧
  (∀ w ∈ defaultGrouper.create_analysis_windows ts D,
      w.end_time ≤ (defaultGrouper.numWindows D : ℚ) * ANALYSIS_WINDOW_SECONDS) ∧
  (∀ w ∈ defaultGrouper.create_analysis_windows ts D,
      w.is_split_window = false →
      w.end_time = w.start_time + ANALYSIS_WINDOW_SECONDS) ∧
  (∀ w1 ∈ defaultGrouper.create_analysis_windows ts D,
    ∀ w2 ∈ defaultGrouper.create_analysis_windows ts D,
      w1.is_split_window = false → w2.is_split_window = false →
      w2.start_time = w1.start_time + ANALYSIS_WINDOW_SECONDS →
      w1.end_time = w2.start_time)

/-- C1: for every sorted list of non-negative motion timestamps and every
video duration, `create_analysis_windows` returns windows ordered by
ascending `start_time` with pairwise disjoint interiors, every emitted
window (normal or split) ends no later than `video_duration`, the tiling
drops the final partial window (everything ends within the fully tiled
region `[0, W * numWindows]`), and any two normal sibling windows — normal
windows whose start times are one base window length `W` apart — satisfy
`end_time(first) = start_time(second)`. -/
theorem claim1_window_tiling_invariants
    (ts : List ℚ) (D : ℚ)
    (hsorted : ts.Sorted (· ≤ ·)) (hnn : ∀ t ∈ ts, 0 ≤ t) :
    WindowTilingInvariants ts D := by
  have hW := defaultGrouper_window_pos
  have hs := defaultGrouper_split_pos
  have hWseconds : defaultGrouper.window_seconds = ANALYSIS_WINDOW_SECONDS := rfl
  refine ⟨create_analysis_windows_pairwise _ hW hs ts D, ?_, ?_, ?_, ?_, ?_⟩
  · intro w hw
    obtain ⟨k, hk, hwk⟩ := (mem_create_analysis_windows _).1 hw
    exact (mem_windowBody_bounds _ hW hs hwk).2.2.1
  · intro w hw
    exact (create_analysis_windows_end_le _ hW hs hw).2
  · intro w hw
    rw [← hWseconds]
    exact (create_analysis_windows_end_le _ hW hs hw).1
  · intro w hw hnormal
    obtain ⟨k, hk, hwk⟩ := (mem_create_analysis_windows _).1 hw
    rw [mem_windowBody_normal _ hwk hnormal]
    rfl
  · intro w1 hw1 w2 hw2 hn1 hn2 hsib
    obtain ⟨k1, hk1, hwk1⟩ := (mem_create_analysis_windows _).1 hw1
    rw [mem_windowBody_normal _ hwk1 hn1] at hsib ⊢
    rw [hsib]
    rfl

theorem claim1_window_tiling_invariants_witness :
    (([(1:ℚ)/2].Sorted (· ≤ ·)) ∧ (∀ t ∈ [(1:ℚ)/2], (0:ℚ) ≤ t)) ∧
      WindowTilingInvariants [(1:ℚ)/2] 2 :=
  ⟨⟨List.sorted_singleton _, by norm_num⟩,
    claim1_window_tiling_invariants [(1:ℚ)/2] 2 (List.sorted_singleton _)
      (by norm_num)⟩

/-- C9: a run with zero motion timestamps yields an empty segment list from
`group_motion_timestamps`, every candidate window is rejected (density `0`
is below `D_min`), and `create_analysis_windows` returns the empty window
list for every video duration; all three are total functions, so no
error is raised. -/
theorem claim9_empty_timestamps_empty_windows :
    defaultGrouper.group_motion_timestamps [] = [] ∧
    (∀ s : ℚ, defaultGrouper.windowBody [] s = []) ∧
    (∀ D : ℚ, defaultGrouper.create_analysis_windows [] D = []) := by
  have hbody : ∀ s : ℚ, defaultGrouper.windowBody [] s = [] := by
    intro s
    norm_num [MotionGrouper.windowBody, windowMotionCount, MotionGrouper.density,
      MotionGrouper.estimatedDuration, defaultGrouper, MotionGrouper.make,
      MINIMUM_MOTION_DENSITY, ANALYSIS_WINDOW_SECONDS, List.filter]
  refine ⟨rfl, hbody, ?_⟩
  intro D
  unfold MotionGrouper.create_analysis_windows
  have : pySorted [] = [] := rfl
  rw [this]
  simp [hbody]

/-- The end-to-end scenario input of the spec:
motion timestamps `[0.1, 0.2, 0.3, 0.5, 1.0, 1.2, 1.5]`. -/
def scenarioTimestamps : List ℚ := [1/10, 2/10, 3/10, 5/10, 1, 12/10, 15/10]

/-- The single window the scenario produces. -/
def scenarioWindow : AnalysisWindow :=
  { start_time := 0
    end_time := 2
    motion_density := 7/20
    motion_duration := 7/10
    motion_count := 7
    motion_intensity := 7/2
    is_split_window := false
    sampling_fps := 8
    parent_window := none }

theorem scenario_create_eq :
    defaultGrouper.create_analysis_windows scenarioTimestamps 20 =
      [scenarioWindow] := by
  simp only [scenarioTimestamps, scenarioWindow]
  norm_num [MotionGrouper.create_analysis_windows, MotionGrouper.numWindows,
    MotionGrouper.windowBody, MotionGrouper.normalWindow, windowMotionCount,
    MotionGrouper.density, MotionGrouper.intensity, MotionGrouper.estimatedDuration,
    defaultGrouper, MotionGrouper.make, pySorted,
    insertSorted, List.filter, List.range, List.range.loop, List.flatMap,
    ANALYSIS_WINDOW_SECONDS, MOTION_GAP_THRESHOLD, MINIMUM_MOTION_DENSITY,
    HIGH_MOTION_THRESHOLD, FRAMES_PER_SECOND, Int.toNat_ofNat]

/-- The per-window scoring formulas of C6, stated for a normal window
against the original (unsorted) timestamp list. -/
def DensityFormulaSpec (ts : List ℚ) (w : AnalysisWindow) : Prop :=
  w.motion_count = windowMotionCount ts w.start_time w.end_time ∧
  w.motion_duration = min ((w.motion_count : ℚ) * (1/10)) ANALYSIS_WINDOW_SECONDS ∧
  w.motion_density = w.motion_duration / ANALYSIS_WINDOW_SECONDS ∧
  w.motion_intensity = (w.motion_count : ℚ) / ANALYSIS_WINDOW_SECONDS

/-- The concrete end-to-end scenario facts of C6. -/
def ScenarioSpec : Prop :=
  defaultGrouper.create_analysis_windows scenarioTimestamps 20 = [scenarioWindow] ∧
  scenarioWindow.motion_count = 7 ∧
  scenarioWindow.motion_density = 7/20 ∧
  MINIMUM_MOTION_DENSITY < 7/20 ∧
  scenarioWindow.motion_intensity = 7/2 ∧
  (7:ℚ)/2 < HIGH_MOTION_THRESHOLD ∧
  scenarioWindow.is_split_window = false ∧
  scenarioWindow.sampling_fps = FRAMES_PER_SECOND ∧
  FRAMES_PER_SECOND = 8

/-- C6: every emitted normal window carries `motion_count` = number of
timestamps in `[start, end]` (both ends inclusive), estimated duration
`min(count * 0.1, W)`, density `duration / W` and intensity `count / W`;
and on the scenario input `[0.1,0.2,0.3,0.5,1.0,1.2,1.5]` with duration
`20.0` and default configuration, the first 2-second window counts 7
events, its density `0.35` exceeds `D_min = 0.125`, its intensity `3.5`
is below `I_high = 12.0`, and it is emitted as the single, normal
(`is_split_window = false`) window at base sampling rate 8. -/
theorem claim6_density_formulas_and_scenario
    (ts : List ℚ) (D : ℚ) (w : AnalysisWindow)
    (hw : w ∈ defaultGrouper.create_analysis_windows ts D)
    (hnormal : w.is_split_window = false) :
    DensityFormulaSpec ts w ∧ ScenarioSpec := by
  constructor
  · obtain ⟨k, hk, hwk⟩ := (mem_create_analysis_windows _).1 hw
    have heq := mem_windowBody_normal _ hwk hnormal
    subst heq
    refine ⟨?_, rfl, rfl, rfl⟩
    show windowMotionCount (pySorted ts) _ _ = windowMotionCount ts _ _
    exact windowMotionCount_pySorted ts _ _
  · exact ⟨scenario_create_eq, rfl, rfl, by norm_num [MINIMUM_MOTION_DENSITY],
      rfl, by norm_num [HIGH_MOTION_THRESHOLD], rfl, rfl, rfl⟩

theorem claim6_density_formulas_and_scenario_witness :
    (scenarioWindow ∈ defaultGrouper.create_analysis_windows scenarioTimestamps 20 ∧
      scenarioWindow.is_split_window = false) ∧
    (DensityFormulaSpec scenarioTimestamps scenarioWindow ∧ ScenarioSpec) :=
  ⟨⟨by rw [scenario_create_eq]; exact List.mem_singleton_self _, rfl⟩,
    claim6_density_formulas_and_scenario scenarioTimestamps 20 scenarioWindow
      (by rw [scenario_create_eq]; exact List.mem_singleton_self _) rfl⟩

/-- When the density check fails, the candidate window contributes nothing. -/
theorem windowBody_eq_nil_of_low_density (g : MotionGrouper) {ts : List ℚ} {s : ℚ}
    (h : g.density (windowMotionCount ts s (s + g.window_seconds)) <
      g.min_motion_density) :
    g.windowBody ts s = [] := by
  unfold MotionGrouper.windowBody
  rw [if_neg (not_le.2 h)]

/-- When the density check passes (and a sub-window fits into a window),
the candidate window contributes at least one window. -/
theorem windowBody_ne_nil_of_density (g : MotionGrouper)
    (hW : 0 < g.window_seconds) (hs : 0 < g.split_window_size)
    (hsW : g.split_window_size ≤ g.window_seconds) {ts : List ℚ} {s : ℚ}
    (h : g.min_motion_density ≤
      g.density (windowMotionCount ts s (s + g.window_seconds))) :
    g.windowBody ts s ≠ [] := by
  unfold MotionGrouper.windowBody
  rw [if_pos h]
  split
  · unfold MotionGrouper.create_split_windows
    simp only [ne_eq, List.map_eq_nil_iff, List.range_eq_nil]
    rw [add_sub_cancel_left]
    have h1 : (1:ℚ) ≤ g.window_seconds / g.split_window_size :=
      (one_le_div hs).2 hsW
    have h2 : (1:ℤ) ≤ ⌊g.window_seconds / g.split_window_size⌋ :=
      Int.le_floor.2 (by exact_mod_cast h1)
    rw [pyInt_of_nonneg _ (by linarith)]
    omega
  · simp

/-- The C7 boundary behavior at candidate window `k`. -/
def DensityBoundarySpec (g : MotionGrouper) (ts : List ℚ) (D : ℚ) (k : ℕ) : Prop :=
  (g.density (windowMotionCount ts ((k:ℚ) * g.window_seconds)
      ((k:ℚ) * g.window_seconds + g.window_seconds)) = g.min_motion_density →
    ∃ w ∈ g.create_analysis_windows ts D,
      (k:ℚ) * g.window_seconds ≤ w.start_time ∧
      w.start_time < (k:ℚ) * g.window_seconds + g.window_seconds) ∧
  (g.density (windowMotionCount ts ((k:ℚ) * g.window_seconds)
      ((k:ℚ) * g.window_seconds + g.window_seconds)) < g.min_motion_density →
    ∀ w ∈ g.create_analysis_windows ts D,
      ¬((k:ℚ) * g.window_seconds ≤ w.start_time ∧
        w.start_time < (k:ℚ) * g.window_seconds + g.window_seconds))

/-- C7: a candidate window whose motion density equals `D_min` exactly is
admitted (the comparison is `>=`, boundary inclusive) and contributes at
least one output window located in its tile; a candidate window whose
density is strictly below `D_min` is rejected and contributes no window to
the output. -/
theorem claim7_density_boundary
    (g : MotionGrouper) (hW : 0 < g.window_seconds)
    (hs : 0 < g.split_window_size) (hsW : g.split_window_size ≤ g.window_seconds)
    (ts : List ℚ) (D : ℚ) (k : ℕ) (hk : k < g.numWindows D) :
    DensityBoundarySpec g ts D k := by
  have hcnt : windowMotionCount (pySorted ts) ((k:ℚ) * g.window_seconds)
      ((k:ℚ) * g.window_seconds + g.window_seconds) =
      windowMotionCount ts ((k:ℚ) * g.window_seconds)
      ((k:ℚ) * g.window_seconds + g.window_seconds) :=
    windowMotionCount_pySorted ts _ _
  constructor
  · intro hEq
    have hne := @windowBody_ne_nil_of_density g hW hs hsW
      (pySorted ts) ((k:ℚ) * g.window_seconds) (by rw [hcnt, hEq])
    obtain ⟨w, hwmem⟩ := List.exists_mem_of_ne_nil _ hne
    refine ⟨w, (mem_create_analysis_windows g).2 ⟨k, hk, hwmem⟩, ?_, ?_⟩
    · exact (mem_windowBody_bounds g hW hs hwmem).1
    · exact (mem_windowBody_bounds g hW hs hwmem).2.1
  · intro hlt w hw ⟨h1, h2⟩
    obtain ⟨j, hj, hwj⟩ := (mem_create_analysis_windows g).1 hw
    have hb := mem_windowBody_bounds g hW hs hwj
    have hjk : j = k := by
      have hkj : (k:ℚ) * g.window_seconds < ((j:ℚ) + 1) * g.window_seconds := by
        have := hb.2.1
        nlinarith [h1]
      have hjk' : (j:ℚ) * g.window_seconds < ((k:ℚ) + 1) * g.window_seconds := by
        have := hb.1
        nlinarith [h2]
      have c1 : (k:ℚ) < (j:ℚ) + 1 := lt_of_mul_lt_mul_right hkj (le_of_lt hW)
      have c2 : (j:ℚ) < (k:ℚ) + 1 := lt_of_mul_lt_mul_right hjk' (le_of_lt hW)
      have : k < j + 1 := by exact_mod_cast c1
      have : j < k + 1 := by exact_mod_cast c2
      omega
    subst hjk
    rw [windowBody_eq_nil_of_low_density g (by rw [hcnt]; exact hlt)] at hwj
    simp at hwj

theorem claim7_density_boundary_witness :
    (0 < (MotionGrouper.make (3/10) 2 (3/20)).window_seconds ∧
     0 < (MotionGrouper.make (3/10) 2 (3/20)).split_window_size ∧
     (MotionGrouper.make (3/10) 2 (3/20)).split_window_size ≤
       (MotionGrouper.make (3/10) 2 (3/20)).window_seconds ∧
     0 < (MotionGrouper.make (3/10) 2 (3/20)).numWindows 2) ∧
    DensityBoundarySpec (MotionGrouper.make (3/10) 2 (3/20))
      [1/10, 2/10, 3/10] 2 0 :=
  ⟨⟨by norm_num [MotionGrouper.make, HIGH_MOTION_SPLIT_WINDOW_SIZE],
    by norm_num [MotionGrouper.make, HIGH_MOTION_SPLIT_WINDOW_SIZE],
    by norm_num [MotionGrouper.make, HIGH_MOTION_SPLIT_WINDOW_SIZE],
    by norm_num [MotionGrouper.make, MotionGrouper.numWindows, Int.toNat_ofNat]⟩,
    claim7_density_boundary _
      (by norm_num [MotionGrouper.make])
      (by norm_num [MotionGrouper.make, HIGH_MOTION_SPLIT_WINDOW_SIZE])
      (by norm_num [MotionGrouper.make, HIGH_MOTION_SPLIT_WINDOW_SIZE])
      _ _ 0
      (by norm_num [MotionGrouper.make, MotionGrouper.numWindows, Int.toNat_ofNat])⟩

/-- The C4 high-motion splitting behavior of a candidate window at `s`
that has already passed the density check. -/
def SplitWindowSpec (g : MotionGrouper) (ts : List ℚ) (s : ℚ) : Prop :=
  (g.high_motion_threshold ≤
      g.intensity (windowMotionCount ts s (s + g.window_seconds)) →
    g.windowBody ts s = g.create_split_windows s (s + g.window_seconds) ts ∧
    (g.windowBody ts s).length =
      (Int.floor (g.window_seconds / g.split_window_size)).toNat ∧
    (∀ w ∈ g.windowBody ts s,
      w.is_split_window = true ∧
      w.sampling_fps = g.split_fps ∧
      w.parent_window = some (s, s + g.window_seconds) ∧
      w.motion_count = windowMotionCount ts w.start_time w.end_time ∧
      w.motion_duration = min ((w.motion_count : ℚ) * (1/10)) g.split_window_size ∧
      w.motion_density = w.motion_duration / g.split_window_size ∧
      w.motion_intensity = (w.motion_count : ℚ) / g.split_window_size) ∧
    ((g.windowBody ts s).map (fun w => w.end_time - w.start_time)).sum ≤
      g.window_seconds) ∧
  (g.intensity (windowMotionCount ts s (s + g.window_seconds)) <
      g.high_motion_threshold →
    g.windowBody ts s = [g.normalWindow ts s] ∧
    (g.normalWindow ts s).is_split_window = false ∧
    (g.normalWindow ts s).sampling_fps = FRAMES_PER_SECOND)

/-- C4: a candidate window that passes the density check and whose
intensity is at least `I_high` (boundary inclusive) is replaced by
`floor(W / W_split)` sub-windows, each tagged `is_split = true`, carrying
`sampling_fps = F_split` and the parent range, re-scored against the
timestamps of its own sub-range, emitted unconditionally (the count is
exactly `floor(W / W_split)`, no secondary density re-rejection), with
combined duration at most the parent duration; an intensity even one
event/sec lower leaves the window a single normal one. -/
theorem claim4_high_motion_splitting
    (g : MotionGrouper) (hW : 0 < g.window_seconds)
    (hs : 0 < g.split_window_size) (ts : List ℚ) (s : ℚ)
    (hden : g.min_motion_density ≤
      g.density (windowMotionCount ts s (s + g.window_seconds))) :
    SplitWindowSpec g ts s := by
  have hdiv : (0:ℚ) ≤ g.window_seconds / g.split_window_size :=
    le_of_lt (div_pos hW hs)
  constructor
  · intro hint
    have hbody : g.windowBody ts s =
        g.create_split_windows s (s + g.window_seconds) ts := by
      unfold MotionGrouper.windowBody
      rw [if_pos hden, if_pos hint]
    refine ⟨hbody, ?_, ?_, ?_⟩
    · rw [hbody]
      unfold MotionGrouper.create_split_windows
      rw [List.length_map, List.length_range, add_sub_cancel_left,
        pyInt_of_nonneg _ hdiv]
    · intro w hw
      rw [hbody] at hw
      unfold MotionGrouper.create_split_windows at hw
      obtain ⟨i, hi, rfl⟩ := List.mem_map.1 hw
      exact ⟨rfl, rfl, rfl, rfl, rfl, rfl, rfl⟩
    · rw [hbody]
      unfold MotionGrouper.create_split_windows
      rw [List.map_map]
      have hconst : ∀ i ∈ List.range
          ((pyInt ((s + g.window_seconds - s) / g.split_window_size)).toNat),
          ((fun w => w.end_time - w.start_time) ∘
            g.subWindow s (s + g.window_seconds) ts) i = g.split_window_size := by
        intro i hi
        rw [List.mem_range, add_sub_cancel_left] at hi
        show (g.subWindow s (s + g.window_seconds) ts i).end_time -
          (g.subWindow s (s + g.window_seconds) ts i).start_time = _
        rw [subWindow_end_eq g hs s ts i hi]
        show s + ((i:ℚ) + 1) * g.split_window_size -
          (s + (i:ℚ) * g.split_window_size) = g.split_window_size
        ring
      rw [List.map_congr_left hconst]
      rw [List.map_const', List.sum_replicate, List.length_range, nsmul_eq_mul]
      rw [add_sub_cancel_left]
      rcases Nat.eq_zero_or_pos
        ((pyInt (g.window_seconds / g.split_window_size)).toNat) with h0 | hpos
      · rw [h0]
        push_cast
        linarith
      · have hlt : (pyInt (g.window_seconds / g.split_window_size)).toNat - 1 <
            (pyInt (g.window_seconds / g.split_window_size)).toNat := by omega
        have hle := splitNum_mul_le g hs _ hlt
        have hcast :
            (((pyInt (g.window_seconds / g.split_window_size)).toNat - 1 : ℕ) : ℚ) + 1 =
            ((pyInt (g.window_seconds / g.split_window_size)).toNat : ℚ) := by
          have h1 : ((pyInt (g.window_seconds / g.split_window_size)).toNat - 1) + 1 =
              (pyInt (g.window_seconds / g.split_window_size)).toNat := by omega
          exact_mod_cast congrArg (fun n : ℕ => (n : ℚ)) h1
        rw [hcast] at hle
        exact hle
  · intro hint
    have hbody : g.windowBody ts s = [g.normalWindow ts s] := by
      unfold MotionGrouper.windowBody
      rw [if_pos hden, if_neg (not_le.2 hint)]
    exact ⟨hbody, rfl, rfl⟩

theorem claim4_high_motion_splitting_witness :
    (0 < defaultGrouper.window_seconds ∧ 0 < defaultGrouper.split_window_size ∧
      defaultGrouper.min_motion_density ≤ defaultGrouper.density
        (windowMotionCount [1, 1, 1, 1, 1, 1, 1, 1, 1, 1, 1, 1, 1, 1, 1, 1, 1,
          1, 1, 1, 1, 1, 1, 1] 0 (0 + defaultGrouper.window_seconds))) ∧
    SplitWindowSpec defaultGrouper
      [1, 1, 1, 1, 1, 1, 1, 1, 1, 1, 1, 1, 1, 1, 1, 1, 1, 1, 1, 1, 1, 1, 1, 1]
      0 :=
  ⟨⟨defaultGrouper_window_pos, defaultGrouper_split_pos,
    by norm_num [defaultGrouper, MotionGrouper.make, MotionGrouper.density,
      MotionGrouper.estimatedDuration, windowMotionCount, List.filter,
      MINIMUM_MOTION_DENSITY, ANALYSIS_WINDOW_SECONDS]⟩,
    claim4_high_motion_splitting defaultGrouper defaultGrouper_window_pos
      defaultGrouper_split_pos _ 0
      (by norm_num [defaultGrouper, MotionGrouper.make, MotionGrouper.density,
        MotionGrouper.estimatedDuration, windowMotionCount, List.filter,
        MINIMUM_MOTION_DENSITY, ANALYSIS_WINDOW_SECONDS])⟩

/-! Section: ContextManager (src/context_manager.py)

Entries are the dicts built in `add_scene_context`; `timestamp_range` is the
`{'start': .., 'end': ..}` pair.  Python `str.strip()` is modelled by
`pyStrip` (drop unicode whitespace from both ends). -/

def pyStrip (s : String) : String :=
  ⟨((s.data.dropWhile Char.isWhitespace).reverse.dropWhile Char.isWhitespace).reverse⟩

structure ContextEntry where
  context : String
  timestamp_range : ℚ × ℚ
  sequence_number : ℕ
deriving DecidableEq, Repr

def max_context_length : ℕ := 3

/-- The `context_entry` dict built at lines 11-15. -/
def mkEntry (context : String) (timestamp_range : ℚ × ℚ)
    (sequence_number : ℕ) : ContextEntry :=
  { context := context
    timestamp_range := timestamp_range
    sequence_number := sequence_number }

/-- Source: `ContextManager.add_scene_context` (src/context_manager.py lines 8-23):
append the stripped text with `sequence_number = len(history) + 1`, then
keep only the most recent `max_context_length` entries. -/
def add_scene_context (history : List ContextEntry) (scene_context : String)
    (timestamp_range : ℚ × ℚ) : List ContextEntry :=
  if scene_context ≠ "" ∧ pyStrip scene_context ≠ "" then
    let h := history ++
      [mkEntry (pyStrip scene_context) timestamp_range (history.length + 1)]
    if max_context_length < h.length then h.drop (h.length - max_context_length)
    else h
  else history

/-- One rendered line of `get_context_prompt_addition` (line 33-34).  The
fixed-point interpolation `f"{x:.1f}"` is rendered through `toString`; the
properties below depend only on the line structure, not the digit format. -/
def entryLine (e : ContextEntry) : String :=
  "\n- Sequence " ++ toString e.sequence_number ++ " (" ++
    toString e.timestamp_range.1 ++ "s-" ++ toString e.timestamp_range.2 ++
    "s): " ++ e.context

/-- Source: `ContextManager.get_context_prompt_addition`
(src/context_manager.py lines 25-40). -/
def get_context_prompt_addition (history : List ContextEntry) : String :=
  if history = [] then ""
  else
    history.foldl (fun acc e => acc ++ entryLine e)
      "\nPREVIOUS SCENE CONTEXT (for continuity):" ++
    "\n\nUse this context to better understand the ongoing situation and identify any concerning developments or patterns.\n"

/-- Source: `ContextManager.clear_context` (src/context_manager.py lines 42-45). -/
def clear_context (_history : List ContextEntry) : List ContextEntry := []

theorem foldl_entryLine_starts (l : List ContextEntry) (acc : String) :
    acc.data <+: (l.foldl (fun a e => a ++ entryLine e) acc).data := by
  induction l generalizing acc with
  | nil => exact ⟨[], List.append_nil _⟩
  | cons x xs ih =>
    rw [List.foldl_cons]
    obtain ⟨t, ht⟩ := ih (acc ++ entryLine x)
    refine ⟨(entryLine x).data ++ t, ?_⟩
    rw [← ht, String.data_append, List.append_assoc]

theorem mem_foldl_entryLine_inside (l : List ContextEntry) (acc : String)
    (e : ContextEntry) (he : e ∈ l) :
    (entryLine e).data <:+: (l.foldl (fun a x => a ++ entryLine x) acc).data := by
  induction l generalizing acc with
  | nil => cases he
  | cons x xs ih =>
    rw [List.mem_cons] at he
    rcases he with rfl | he
    · obtain ⟨t, ht⟩ := foldl_entryLine_starts xs (acc ++ entryLine e)
      refine ⟨acc.data, t, ?_⟩
      rw [List.foldl_cons, ← ht, String.data_append]
    · exact ih (acc ++ entryLine x) he

/-- Every current entry's line occurs inside the rendered context block. -/
theorem entryLine_inside_render (h : List ContextEntry) (e : ContextEntry)
    (he : e ∈ h) :
    (entryLine e).data <:+: (get_context_prompt_addition h).data := by
  have hne : h ≠ [] := List.ne_nil_of_mem he
  unfold get_context_prompt_addition
  rw [if_neg hne, String.data_append]
  obtain ⟨s, t, hst⟩ := mem_foldl_entryLine_inside h
    "\nPREVIOUS SCENE CONTEXT (for continuity):" e he
  exact ⟨s, t ++ ("\n\nUse this context to better understand the ongoing situation and identify any concerning developments or patterns.\n").data,
    by rw [← hst]; simp [List.append_assoc]⟩

/-- Appending never leaves more than `max_context_length` entries behind. -/
theorem add_scene_context_length_le (history : List ContextEntry) (s : String)
    (r : ℚ × ℚ) (hlen : history.length ≤ max_context_length) :
    (add_scene_context history s r).length ≤ max_context_length := by
  unfold add_scene_context
  split
  · dsimp only
    split
    · rw [List.length_drop]
      simp only [List.length_append, List.length_singleton]
      omega
    · rename_i hle
      simp only [not_lt, List.length_append, List.length_singleton] at hle
      simpa using hle
  · exact hlen

/-- Unfolding of a non-blank append. -/
theorem add_scene_context_nonblank (history : List ContextEntry) (s : String)
    (r : ℚ × ℚ) (hb : s ≠ "" ∧ pyStrip s ≠ "") :
    add_scene_context history s r =
      (if max_context_length <
          (history ++ [mkEntry (pyStrip s) r (history.length + 1)]).length then
        (history ++ [mkEntry (pyStrip s) r (history.length + 1)]).drop
          ((history ++ [mkEntry (pyStrip s) r (history.length + 1)]).length -
            max_context_length)
      else history ++ [mkEntry (pyStrip s) r (history.length + 1)]) := by
  unfold add_scene_context
  rw [if_pos hb]

/-- A blank (empty or whitespace-only) append is a no-op. -/
theorem add_scene_context_blank (history : List ContextEntry) (s : String)
    (r : ℚ × ℚ) (hs : pyStrip s = "") :
    add_scene_context history s r = history := by
  unfold add_scene_context
  rw [if_neg (fun hc => hc.2 hs)]

/-- C8: the Context Accumulator holds at most `K = 3` entries: appending
`K + 1` non-empty texts to an empty history retains only the most recent
`K`, oldest evicted first; appending to any history of at most `K` entries
leaves at most `K`; appending an empty or whitespace-only text leaves the
history unchanged; `get_context_prompt_addition` returns `""` for an empty
history and otherwise contains every current entry's rendered line (with
its time range); `clear_context` unconditionally empties the history. -/
theorem claim8_context_accumulator
    (h : List ContextEntry) (hlen : h.length ≤ max_context_length)
    (t1 t2 t3 t4 : String) (r1 r2 r3 r4 : ℚ × ℚ)
    (hb1 : t1 ≠ "" ∧ pyStrip t1 ≠ "") (hb2 : t2 ≠ "" ∧ pyStrip t2 ≠ "")
    (hb3 : t3 ≠ "" ∧ pyStrip t3 ≠ "") (hb4 : t4 ≠ "" ∧ pyStrip t4 ≠ "")
    (s : String) (hs : pyStrip s = "") (r : ℚ × ℚ) :
    (add_scene_context h t1 r1).length ≤ max_context_length ∧
    add_scene_context (add_scene_context (add_scene_context
        (add_scene_context [] t1 r1) t2 r2) t3 r3) t4 r4 =
      [⟨pyStrip t2, r2, 2⟩, ⟨pyStrip t3, r3, 3⟩, ⟨pyStrip t4, r4, 4⟩] ∧
    add_scene_context h s r = h ∧
    get_context_prompt_addition [] = "" ∧
    (∀ e ∈ h, (entryLine e).data <:+: (get_context_prompt_addition h).data) ∧
    clear_context h = [] := by
  refine ⟨add_scene_context_length_le h t1 r1 hlen, ?_,
    add_scene_context_blank h s r hs, rfl,
    fun e he => entryLine_inside_render h e he, rfl⟩
  rw [add_scene_context_nonblank _ _ _ hb4, add_scene_context_nonblank _ _ _ hb3,
    add_scene_context_nonblank _ _ _ hb2, add_scene_context_nonblank _ _ _ hb1]
  simp [max_context_length, mkEntry]

theorem claim8_context_accumulator_witness :
    (([⟨"x", (0, 1), 1⟩] : List ContextEntry).length ≤ max_context_length ∧
      (("a" : String) ≠ "" ∧ pyStrip "a" ≠ "") ∧
      (("b" : String) ≠ "" ∧ pyStrip "b" ≠ "") ∧
      (("c" : String) ≠ "" ∧ pyStrip "c" ≠ "") ∧
      (("d" : String) ≠ "" ∧ pyStrip "d" ≠ "") ∧
      pyStrip " " = "") ∧
    ((add_scene_context [⟨"x", (0, 1), 1⟩] "a" (1, 2)).length ≤ max_context_length ∧
    add_scene_context (add_scene_context (add_scene_context
        (add_scene_context [] "a" (1, 2)) "b" (2, 3)) "c" (3, 4)) "d" (4, 5) =
      [⟨pyStrip "b", (2, 3), 2⟩, ⟨pyStrip "c", (3, 4), 3⟩, ⟨pyStrip "d", (4, 5), 4⟩] ∧
    add_scene_context [⟨"x", (0, 1), 1⟩] " " (5, 6) = [⟨"x", (0, 1), 1⟩] ∧
    get_context_prompt_addition [] = "" ∧
    (∀ e ∈ ([⟨"x", (0, 1), 1⟩] : List ContextEntry),
      (entryLine e).data <:+:
        (get_context_prompt_addition [⟨"x", (0, 1), 1⟩]).data) ∧
    clear_context [⟨"x", (0, 1), 1⟩] = []) :=
  ⟨⟨by decide, by decide, by decide, by decide, by decide, by decide⟩,
    claim8_context_accumulator [⟨"x", (0, 1), 1⟩] (by decide)
      "a" "b" "c" "d" (1, 2) (2, 3) (3, 4) (4, 5)
      (by decide) (by decide) (by decide) (by decide)
      " " (by decide) (5, 6)⟩

/-- C10 (implicit): `sequence_number` is assigned as `len(history) + 1` at
append time, before eviction, so once the history is at its capacity of 3
every new entry receives `sequence_number 4`; after five appends from empty
the retained sequence numbers are `[3, 4, 4]` — neither unique nor strictly
increasing — and the renderer emits a line for each of the duplicate-labelled
entries. -/
theorem claim10_sequence_number_reuse
    (h : List ContextEntry) (s : String) (r : ℚ × ℚ)
    (hcap : h.length = max_context_length) (hb : s ≠ "" ∧ pyStrip s ≠ "")
    (t1 t2 t3 t4 t5 : String) (r0 : ℚ × ℚ)
    (hc1 : t1 ≠ "" ∧ pyStrip t1 ≠ "") (hc2 : t2 ≠ "" ∧ pyStrip t2 ≠ "")
    (hc3 : t3 ≠ "" ∧ pyStrip t3 ≠ "") (hc4 : t4 ≠ "" ∧ pyStrip t4 ≠ "")
    (hc5 : t5 ≠ "" ∧ pyStrip t5 ≠ "") :
    add_scene_context h s r =
      h.drop 1 ++ [mkEntry (pyStrip s) r (max_context_length + 1)] ∧
    (add_scene_context h s r).length = max_context_length ∧
    (add_scene_context (add_scene_context (add_scene_context
        (add_scene_context (add_scene_context [] t1 r0) t2 r0) t3 r0)
        t4 r0) t5 r0).map (fun e => e.sequence_number) = [3, 4, 4] ∧
    ¬ ((add_scene_context (add_scene_context (add_scene_context
        (add_scene_context (add_scene_context [] t1 r0) t2 r0) t3 r0)
        t4 r0) t5 r0).map (fun e => e.sequence_number)).Nodup ∧
    ¬ List.Chain' (· < ·) ((add_scene_context (add_scene_context
        (add_scene_context (add_scene_context (add_scene_context [] t1 r0)
        t2 r0) t3 r0) t4 r0) t5 r0).map (fun e => e.sequence_number)) ∧
    (∀ e ∈ add_scene_context (add_scene_context (add_scene_context
        (add_scene_context (add_scene_context [] t1 r0) t2 r0) t3 r0)
        t4 r0) t5 r0,
      (entryLine e).data <:+:
        (get_context_prompt_addition (add_scene_context (add_scene_context
          (add_scene_context (add_scene_context (add_scene_context [] t1 r0)
          t2 r0) t3 r0) t4 r0) t5 r0)).data) := by
  have hone : add_scene_context h s r =
      h.drop 1 ++ [mkEntry (pyStrip s) r (max_context_length + 1)] := by
    rw [add_scene_context_nonblank _ _ _ hb]
    rw [if_pos (by simp [hcap, max_context_length])]
    have hlen1 : (h ++ [mkEntry (pyStrip s) r (h.length + 1)]).length -
        max_context_length = 1 := by
      simp [hcap, max_context_length]
    rw [hlen1, hcap]
    rw [List.drop_append_of_le_length (by rw [hcap]; norm_num [max_context_length])]
  have hfive : add_scene_context (add_scene_context (add_scene_context
      (add_scene_context (add_scene_context [] t1 r0) t2 r0) t3 r0)
      t4 r0) t5 r0 =
      [mkEntry (pyStrip t3) r0 3, mkEntry (pyStrip t4) r0 4,
        mkEntry (pyStrip t5) r0 4] := by
    rw [add_scene_context_nonblank _ _ _ hc5, add_scene_context_nonblank _ _ _ hc4,
      add_scene_context_nonblank _ _ _ hc3, add_scene_context_nonblank _ _ _ hc2,
      add_scene_context_nonblank _ _ _ hc1]
    simp [max_context_length]
  refine ⟨hone, ?_, ?_, ?_, ?_, fun e he => entryLine_inside_render _ e he⟩
  · rw [hone]
    simp [hcap, max_context_length]
  · rw [hfive]
    simp [mkEntry]
  · rw [hfive]
    simp only [List.map_cons, List.map_nil, mkEntry]
    decide
  · rw [hfive]
    simp only [List.map_cons, List.map_nil, mkEntry]
    norm_num [List.chain'_cons]

theorem claim10_sequence_number_reuse_witness :
    (([mkEntry "x" (0, 1) 1, mkEntry "y" (1, 2) 2,
        mkEntry "z" (2, 3) 3] : List ContextEntry).length = max_context_length ∧
      (("w" : String) ≠ "" ∧ pyStrip "w" ≠ "") ∧
      (("a" : String) ≠ "" ∧ pyStrip "a" ≠ "") ∧
      (("b" : String) ≠ "" ∧ pyStrip "b" ≠ "") ∧
      (("c" : String) ≠ "" ∧ pyStrip "c" ≠ "") ∧
      (("d" : String) ≠ "" ∧ pyStrip "d" ≠ "") ∧
      (("e" : String) ≠ "" ∧ pyStrip "e" ≠ "")) ∧
    (add_scene_context [mkEntry "x" (0, 1) 1, mkEntry "y" (1, 2) 2,
        mkEntry "z" (2, 3) 3] "w" (3, 4) =
      ([mkEntry "x" (0, 1) 1, mkEntry "y" (1, 2) 2,
        mkEntry "z" (2, 3) 3].drop 1) ++
        [mkEntry (pyStrip "w") (3, 4) (max_context_length + 1)] ∧
    (add_scene_context [mkEntry "x" (0, 1) 1, mkEntry "y" (1, 2) 2,
        mkEntry "z" (2, 3) 3] "w" (3, 4)).length = max_context_length ∧
    (add_scene_context (add_scene_context (add_scene_context
        (add_scene_context (add_scene_context [] "a" (0, 0)) "b" (0, 0))
        "c" (0, 0)) "d" (0, 0)) "e" (0, 0)).map
        (fun e => e.sequence_number) = [3, 4, 4] ∧
    ¬ ((add_scene_context (add_scene_context (add_scene_context
        (add_scene_context (add_scene_context [] "a" (0, 0)) "b" (0, 0))
        "c" (0, 0)) "d" (0, 0)) "e" (0, 0)).map
        (fun e => e.sequence_number)).Nodup ∧
    ¬ List.Chain' (· < ·) ((add_scene_context (add_scene_context
        (add_scene_context (add_scene_context (add_scene_context []
        "a" (0, 0)) "b" (0, 0)) "c" (0, 0)) "d" (0, 0)) "e" (0, 0)).map
        (fun e => e.sequence_number)) ∧
    (∀ e ∈ add_scene_context (add_scene_context (add_scene_context
        (add_scene_context (add_scene_context [] "a" (0, 0)) "b" (0, 0))
        "c" (0, 0)) "d" (0, 0)) "e" (0, 0),
      (entryLine e).data <:+:
        (get_context_prompt_addition (add_scene_context (add_scene_context
          (add_scene_context (add_scene_context (add_scene_context []
          "a" (0, 0)) "b" (0, 0)) "c" (0, 0)) "d" (0, 0)) "e" (0, 0))).data)) :=
  ⟨⟨by decide, by decide, by decide, by decide, by decide, by decide, by decide⟩,
    claim10_sequence_number_reuse
      [mkEntry "x" (0, 1) 1, mkEntry "y" (1, 2) 2, mkEntry "z" (2, 3) 3]
      "w" (3, 4) (by decide) (by decide)
      "a" "b" "c" "d" "e" (0, 0)
      (by decide) (by decide) (by decide) (by decide) (by decide)⟩

/-! Section: FrameSampler (src/frame_sampler.py)

The video is modelled by its queryable properties: `video_fps`,
`total_frames`, and per-frame decode success (`cap.read` returning `ret`);
decoded pixel data is irrelevant to the properties below.
`video_duration = total_frames / video_fps` as computed at line 15. -/

structure VideoCapture where
  video_fps : ℚ
  total_frames : ℕ
  readOk : ℤ → Bool

def videoDuration (v : VideoCapture) : ℚ :=
  (v.total_frames : ℚ) / v.video_fps

/-- The dict appended at lines 65-69: the stored `frame_number` is the loop
index `i`, not the source frame index. -/
structure ExtractedFrame where
  timestamp : ℚ
  frame_number : ℕ
deriving DecidableEq, Repr

/-- The frame-extraction loop of lines 48-71: for `i` in
`range(frames_per_window)`, `timestamp = sequence_start + i / sampling_fps`;
break if `timestamp > sequence_end`; `frame_number = int(timestamp *
video_fps)`; break if `frame_number >= total_frames`; append the frame if
the decode succeeds.  `rem` is the number of loop iterations left. -/
def extractLoop (v : VideoCapture) (sequence_start sequence_end : ℚ)
    (sampling_fps : ℕ) : ℕ → ℕ → List ExtractedFrame
  | _, 0 => []
  | i, rem + 1 =>
    if sequence_end < sequence_start + (i : ℚ) / (sampling_fps : ℚ) then []
    else if (v.total_frames : ℤ) ≤
        pyInt ((sequence_start + (i : ℚ) / (sampling_fps : ℚ)) * v.video_fps) then []
    else if v.readOk (pyInt ((sequence_start + (i : ℚ) / (sampling_fps : ℚ)) * v.video_fps)) then
      { timestamp := sequence_start + (i : ℚ) / (sampling_fps : ℚ)
        frame_number := i } ::
        extractLoop v sequence_start sequence_end sampling_fps (i + 1) rem
    else extractLoop v sequence_start sequence_end sampling_fps (i + 1) rem

/-- Source: `frames_per_window = int(sampling_fps * window_duration)` (line 33). -/
def framesPerWindow (w : AnalysisWindow) : ℕ :=
  (pyInt ((w.sampling_fps : ℚ) * (w.end_time - w.start_time))).toNat

/-- Source: `min_required_frames = max(8, int(frames_per_window * 0.9))` (line 76). -/
def minRequiredFrames (w : AnalysisWindow) : ℕ :=
  max 8 (pyInt ((framesPerWindow w : ℚ) * (9/10))).toNat

structure FrameSequence where
  start_time : ℚ
  end_time : ℚ
  frames : List ExtractedFrame
  sampling_fps : ℕ
  is_split_window : Bool
  motion_intensity : ℚ
  parent_window : Option (ℚ × ℚ)
deriving DecidableEq, Repr

/-- The accepted sequence dict of lines 79-87. -/
def mkFrameSequence (w : AnalysisWindow) (frames : List ExtractedFrame) :
    FrameSequence :=
  { start_time := w.start_time
    end_time := w.end_time
    frames := frames
    sampling_fps := w.sampling_fps
    is_split_window := w.is_split_window
    motion_intensity := w.motion_intensity
    parent_window := w.parent_window }

/-- Fate of one analysis window inside the loop of lines 26-96. -/
inductive WindowOutcome where
  | accepted (fs : FrameSequence)
  | droppedDuration
  | droppedFrames
deriving DecidableEq

/-- The body of the window loop: skip entirely when
`sequence_end > video_duration` (line 40); otherwise extract and accept
iff `len(frames) >= min_required_frames` (line 77). -/
def processWindow (v : VideoCapture) (w : AnalysisWindow) : WindowOutcome :=
  if videoDuration v < w.end_time then .droppedDuration
  else if minRequiredFrames w ≤
      (extractLoop v w.start_time w.end_time w.sampling_fps 0
        (framesPerWindow w)).length then
    .accepted (mkFrameSequence w
      (extractLoop v w.start_time w.end_time w.sampling_fps 0
        (framesPerWindow w)))
  else .droppedFrames

structure ExtractResult where
  frame_sequences : List FrameSequence
  windows_processed : ℕ
  windows_skipped_duration : ℕ
  windows_skipped_frames : ℕ
deriving DecidableEq

/-- Source: `FrameSampler.extract_frame_sequences` (src/frame_sampler.py lines
10-112): accepted sequences in window order, with the three counters the
summary reports. -/
def extract_frame_sequences (v : VideoCapture) :
    List AnalysisWindow → ExtractResult
  | [] => ⟨[], 0, 0, 0⟩
  | w :: rest =>
    let r := extract_frame_sequences v rest
    match processWindow v w with
    | .accepted fs => ⟨fs :: r.frame_sequences, r.windows_processed + 1,
        r.windows_skipped_duration, r.windows_skipped_frames⟩
    | .droppedDuration => ⟨r.frame_sequences, r.windows_processed,
        r.windows_skipped_duration + 1, r.windows_skipped_frames⟩
    | .droppedFrames => ⟨r.frame_sequences, r.windows_processed,
        r.windows_skipped_duration, r.windows_skipped_frames + 1⟩

theorem extractLoop_length_le (v : VideoCapture) (s e : ℚ) (fps : ℕ) :
    ∀ rem j, (extractLoop v s e fps j rem).length ≤ rem := by
  intro rem
  induction rem with
  | zero => intro j; simp [extractLoop]
  | succ n ih =>
    intro j
    unfold extractLoop
    split
    · simp
    · split
      · simp
      · split
        · simpa using Nat.succ_le_succ (ih (j + 1))
        · exact le_trans (ih (j + 1)) (Nat.le_succ n)

theorem mem_extractLoop (v : VideoCapture) (s e : ℚ) (fps : ℕ) :
    ∀ rem j f, f ∈ extractLoop v s e fps j rem →
      ∃ i, j ≤ i ∧ i < j + rem ∧
        f.timestamp = s + (i : ℚ) / (fps : ℚ) ∧ f.frame_number = i ∧
        s + (i : ℚ) / (fps : ℚ) ≤ e := by
  intro rem
  induction rem with
  | zero => intro j f hf; simp [extractLoop] at hf
  | succ n ih =>
    intro j f hf
    unfold extractLoop at hf
    split at hf
    · simp at hf
    · split at hf
      · simp at hf
      · rename_i hts hfn
        split at hf
        · rw [List.mem_cons] at hf
          rcases hf with rfl | hf
          · exact ⟨j, le_refl j, by omega, rfl, rfl, not_lt.1 hts⟩
          · obtain ⟨i, hji, hin, h⟩ := ih (j + 1) f hf
            exact ⟨i, by omega, by omega, h⟩
        · obtain ⟨i, hji, hin, h⟩ := ih (j + 1) f hf
          exact ⟨i, by omega, by omega, h⟩

/-- For a positive sampling rate, no requested timestamp inside the target
budget of `floor(F * D)` frames exceeds the window end. -/
theorem frameTimestamp_le (w : AnalysisWindow) (hfps : 0 < w.sampling_fps)
    (i : ℕ) (hi : i < framesPerWindow w) :
    w.start_time + (i : ℚ) / (w.sampling_fps : ℚ) ≤ w.end_time := by
  unfold framesPerWindow at hi
  rcases le_or_lt 0 ((w.sampling_fps : ℚ) * (w.end_time - w.start_time)) with hq | hq
  · rw [pyInt_of_nonneg _ hq] at hi
    have hfl : ((i : ℤ) + 1) ≤
        ⌊(w.sampling_fps : ℚ) * (w.end_time - w.start_time)⌋ := by omega
    have h2 : ((i : ℚ) + 1) ≤ (w.sampling_fps : ℚ) * (w.end_time - w.start_time) := by
      exact_mod_cast Int.le_floor.1 hfl
    have hF : (0 : ℚ) < (w.sampling_fps : ℚ) := by exact_mod_cast hfps
    have h3 : (i : ℚ) / (w.sampling_fps : ℚ) ≤ w.end_time - w.start_time := by
      rw [div_le_iff hF]
      nlinarith
    linarith
  · exfalso
    have hle : pyInt ((w.sampling_fps : ℚ) * (w.end_time - w.start_time)) ≤ 0 := by
      simp only [pyInt, if_pos hq]
      have h0 : (0:ℤ) ≤ ⌊-((w.sampling_fps : ℚ) * (w.end_time - w.start_time))⌋ :=
        Int.le_floor.2 (by push_cast; linarith)
      omega
    omega

/-- When every frame inside the budget decodes and maps to a valid source
index, the loop returns exactly one frame per requested timestamp. -/
theorem extractLoop_all_success (v : VideoCapture) (s e : ℚ) (fps : ℕ) :
    ∀ (rem j : ℕ),
      (∀ i : ℕ, j ≤ i → i < j + rem →
        s + (i : ℚ) / (fps : ℚ) ≤ e ∧
        pyInt ((s + (i : ℚ) / (fps : ℚ)) * v.video_fps) < (v.total_frames : ℤ) ∧
        v.readOk (pyInt ((s + (i : ℚ) / (fps : ℚ)) * v.video_fps)) = true) →
      extractLoop v s e fps j rem =
        (List.range' j rem).map
          (fun i => { timestamp := s + (i : ℚ) / (fps : ℚ), frame_number := i }) := by
  intro rem
  induction rem with
  | zero => intro j h; simp [extractLoop]
  | succ n ih =>
    intro j h
    obtain ⟨hts, hfn, hrd⟩ := h j (le_refl j) (by omega)
    unfold extractLoop
    rw [if_neg (not_lt.2 hts), if_neg (not_le.2 hfn), if_pos hrd]
    rw [List.range'_succ, List.map_cons]
    congr 1
    exact ih (j + 1) (fun i h1 h2 => h i (by omega) (by omega))

theorem processWindow_droppedDuration_iff (v : VideoCapture) (w : AnalysisWindow) :
    processWindow v w = WindowOutcome.droppedDuration ↔
      videoDuration v < w.end_time := by
  unfold processWindow
  split
  · rename_i hd
    simpa using hd
  · rename_i hd
    split
    · exact ⟨(fun hc => nomatch hc), fun hc => absurd hc hd⟩
    · exact ⟨(fun hc => nomatch hc), fun hc => absurd hc hd⟩

theorem processWindow_accepted_eq (v : VideoCapture) (w : AnalysisWindow)
    (fs : FrameSequence)
    (hacc : processWindow v w = WindowOutcome.accepted fs) :
    fs = mkFrameSequence w
        (extractLoop v w.start_time w.end_time w.sampling_fps 0
          (framesPerWindow w)) ∧
      w.end_time ≤ videoDuration v ∧
      minRequiredFrames w ≤
        (extractLoop v w.start_time w.end_time w.sampling_fps 0
          (framesPerWindow w)).length := by
  unfold processWindow at hacc
  split at hacc
  · simp at hacc
  · split at hacc
    · rename_i hd hmin
      cases hacc
      exact ⟨rfl, not_lt.1 hd, hmin⟩
    · simp at hacc

/-- The result counters, in window order: each window is classified exactly
once, accepted sequences correspond to processed windows, and the
duration-overrun drops are counted exactly. -/
theorem extract_frame_sequences_counts (v : VideoCapture) (ws : List AnalysisWindow) :
    (extract_frame_sequences v ws).windows_processed +
      (extract_frame_sequences v ws).windows_skipped_duration +
      (extract_frame_sequences v ws).windows_skipped_frames = ws.length ∧
    (extract_frame_sequences v ws).frame_sequences.length =
      (extract_frame_sequences v ws).windows_processed ∧
    (extract_frame_sequences v ws).windows_skipped_duration =
      (ws.filter (fun w => videoDuration v < w.end_time)).length ∧
    (∀ fs ∈ (extract_frame_sequences v ws).frame_sequences,
      fs.end_time ≤ videoDuration v) := by
  induction ws with
  | nil => exact ⟨rfl, rfl, rfl, by intro fs hfs; simp [extract_frame_sequences] at hfs⟩
  | cons w rest ih =>
    obtain ⟨ih1, ih2, ih3, ih4⟩ := ih
    unfold extract_frame_sequences
    rcases hpw : processWindow v w with fs | _ | _
    · have hfacts := processWindow_accepted_eq v w fs hpw
      have hnd : ¬ (videoDuration v < w.end_time) := not_lt.2 hfacts.2.1
      refine ⟨by dsimp; omega, by dsimp; omega, ?_, ?_⟩
      · dsimp
        rw [List.filter_cons_of_neg (by simpa using hnd)]
        exact ih3
      · intro fs' hfs'
        dsimp at hfs'
        rw [List.mem_cons] at hfs'
        rcases hfs' with rfl | hfs'
        · rw [hfacts.1]
          exact hfacts.2.1
        · exact ih4 fs' hfs'
    · have hd : videoDuration v < w.end_time :=
        (processWindow_droppedDuration_iff v w).1 hpw
      refine ⟨by dsimp; omega, by dsimp; omega, ?_, fun fs hfs => ih4 fs hfs⟩
      dsimp
      rw [List.filter_cons_of_pos (by simpa using hd)]
      dsimp
      omega
    · have hnd : ¬ (videoDuration v < w.end_time) := by
        intro hd
        rw [(processWindow_droppedDuration_iff v w).2 hd] at hpw
        cases hpw
      refine ⟨by dsimp; omega, by dsimp; omega, ?_, fun fs hfs => ih4 fs hfs⟩
      dsimp
      rw [List.filter_cons_of_neg (by simpa using hnd)]
      exact ih3

/-- The C3 frame-extraction contract over a video and its window list. -/
def FrameExtractorSpec (v : VideoCapture) (ws : List AnalysisWindow) : Prop :=
  ((extract_frame_sequences v ws).windows_processed +
    (extract_frame_sequences v ws).windows_skipped_duration +
    (extract_frame_sequences v ws).windows_skipped_frames = ws.length) ∧
  ((extract_frame_sequences v ws).frame_sequences.length =
    (extract_frame_sequences v ws).windows_processed) ∧
  ((extract_frame_sequences v ws).windows_skipped_duration =
    (ws.filter (fun w => videoDuration v < w.end_time)).length) ∧
  (∀ w ∈ ws, videoDuration v < w.end_time →
    processWindow v w = WindowOutcome.droppedDuration) ∧
  (∀ fs ∈ (extract_frame_sequences v ws).frame_sequences,
    fs.end_time ≤ videoDuration v) ∧
  (∀ w ∈ ws, 0 ≤ (w.sampling_fps : ℚ) * (w.end_time - w.start_time) →
    (framesPerWindow w : ℤ) =
      Int.floor ((w.sampling_fps : ℚ) * (w.end_time - w.start_time))) ∧
  (∀ w ∈ ws, (minRequiredFrames w : ℤ) =
    max 8 (Int.floor ((framesPerWindow w : ℚ) * (9/10)))) ∧
  (∀ w ∈ ws, ∀ f ∈ extractLoop v w.start_time w.end_time w.sampling_fps 0
      (framesPerWindow w),
    f.timestamp = w.start_time + (f.frame_number : ℚ) / (w.sampling_fps : ℚ) ∧
    f.timestamp ≤ w.end_time ∧ f.frame_number < framesPerWindow w) ∧
  (∀ w ∈ ws, (extractLoop v w.start_time w.end_time w.sampling_fps 0
    (framesPerWindow w)).length ≤ framesPerWindow w) ∧
  (∀ w ∈ ws, 0 < w.sampling_fps →
    (∀ i < framesPerWindow w,
      pyInt ((w.start_time + (i : ℚ) / (w.sampling_fps : ℚ)) * v.video_fps) <
        (v.total_frames : ℤ) ∧
      v.readOk (pyInt ((w.start_time + (i : ℚ) / (w.sampling_fps : ℚ)) *
        v.video_fps)) = true) →
    extractLoop v w.start_time w.end_time w.sampling_fps 0 (framesPerWindow w) =
      (List.range (framesPerWindow w)).map
        (fun i => { timestamp := w.start_time + (i : ℚ) / (w.sampling_fps : ℚ)
                    frame_number := i })) ∧
  (∀ w ∈ ws, w.end_time ≤ videoDuration v →
    (processWindow v w = WindowOutcome.accepted (mkFrameSequence w
        (extractLoop v w.start_time w.end_time w.sampling_fps 0
          (framesPerWindow w))) ↔
      minRequiredFrames w ≤
        (extractLoop v w.start_time w.end_time w.sampling_fps 0
          (framesPerWindow w)).length)) ∧
  (∀ w ∈ ws, ∀ fs, processWindow v w = WindowOutcome.accepted fs →
    fs.sampling_fps = w.sampling_fps ∧ fs.is_split_window = w.is_split_window ∧
    fs.start_time = w.start_time ∧ fs.end_time = w.end_time)

/-- C3: the Frame Extractor computes the target
`frames_per_window = floor(F * D)` from the window's own `sampling_fps`,
requests the `i`-th timestamp as `start + i / F` (each emitted frame obeys
this shape with `timestamp <= end_time` and at most `floor(F * D)` frames,
exactly that many when every requested frame decodes); a window with
`end_time > video_duration` is dropped entirely; a window within the
duration is accepted iff the decoded count reaches
`max(8, floor(0.9 * floor(F * D)))`; the two drop reasons are counted
separately and partition the dropped windows. -/
theorem claim3_frame_extractor (v : VideoCapture) (ws : List AnalysisWindow) :
    FrameExtractorSpec v ws := by
  obtain ⟨hc1, hc2, hc3, hc4⟩ := extract_frame_sequences_counts v ws
  refine ⟨hc1, hc2, hc3, ?_, hc4, ?_, ?_, ?_, ?_, ?_, ?_, ?_⟩
  · intro w _ hd
    exact (processWindow_droppedDuration_iff v w).2 hd
  · intro w _ hq
    unfold framesPerWindow
    rw [pyInt_of_nonneg _ hq, Int.toNat_of_nonneg (Int.le_floor.2 (by simpa))]
  · intro w _
    unfold minRequiredFrames
    have hq : (0:ℚ) ≤ (framesPerWindow w : ℚ) * (9/10) := by positivity
    rw [pyInt_of_nonneg _ hq]
    have hfl : (0:ℤ) ≤ ⌊(framesPerWindow w : ℚ) * (9/10)⌋ :=
      Int.le_floor.2 (by simpa)
    omega
  · intro w _ f hf
    obtain ⟨i, h0i, hin, hts, hfn, hle⟩ :=
      mem_extractLoop v w.start_time w.end_time w.sampling_fps
        (framesPerWindow w) 0 f hf
    refine ⟨by rw [hts, hfn], by rw [hts]; exact hle, by omega⟩
  · intro w _
    exact extractLoop_length_le v w.start_time w.end_time w.sampling_fps
      (framesPerWindow w) 0
  · intro w _ hfps hread
    rw [extractLoop_all_success v w.start_time w.end_time w.sampling_fps
      (framesPerWindow w) 0
      (fun i h1 h2 => ⟨frameTimestamp_le w hfps i (by omega),
        (hread i (by omega)).1, (hread i (by omega)).2⟩)]
    congr 1
    exact (List.range_eq_range' _).symm
  · intro w _ hend
    constructor
    · intro hacc
      exact (processWindow_accepted_eq v w _ hacc).2.2
    · intro hmin
      unfold processWindow
      rw [if_neg (not_lt.2 hend), if_pos hmin]
  · intro w _ fs hacc
    rw [(processWindow_accepted_eq v w fs hacc).1]
    exact ⟨rfl, rfl, rfl, rfl⟩

theorem claim3_frame_extractor_witness :
    FrameExtractorSpec ⟨30, 600, fun _ => true⟩ [scenarioWindow] :=
  claim3_frame_extractor ⟨30, 600, fun _ => true⟩ [scenarioWindow]

/-! Section: MotionEnhancer persistence filtering (src/motion_enhancer.py)

A motion mask is a per-pixel binary raster, modelled as a flat list of
booleans.  The pixel pipeline of `_enhance_single_frame_filtered` (lines
124-150: grayscale, absdiff, threshold, morphology, contour-size filtering)
produces one size-filtered mask per frame pair; the claims below are stated
over those filtered masks, so the sequence loop is parameterized by the
list of filtered masks of frames `1 .. n-1`.  (`frames_data` entries are
never `None` here: the frame sampler only appends successfully decoded
frames, so the `if frames_data[i] is None` guard at line 46 is dead in this
pipeline.) -/

abbrev Mask : Type := List Bool

/-- Source: `cv2.bitwise_and` on same-shaped masks. -/
def andMask (a b : Mask) : Mask := List.zipWith and a b

/-- Python `history[-k:]` for `k >= 0`: for `k = 0` the slice `[-0:]` is
the whole list (the source only ever uses `k = persistence_frames - 1`
with `persistence_frames = 2`). -/
def lastSlice (history : List (Option Mask)) (k : ℕ) : List (Option Mask) :=
  if k = 0 then history else history.drop (history.length - k)

/-- The accumulation loop of `_apply_persistence_filter` (lines 272-281):
starting from the all-ones mask, AND in each recent mask, returning `None`
as soon as one of them is `None`, and `None` at the end when nothing
persisted (`np.any` fails). -/
def foldMasks : List (Option Mask) → Mask → Option Mask
  | [], acc => if acc.any id then some acc else none
  | none :: _, _ => none
  | some m :: rest, acc => foldMasks rest (andMask acc m)

/-- Source: `MotionEnhancer._apply_persistence_filter` (src/motion_enhancer.py lines
257-281).  Note the early returns: for `frame_index < persistence_frames`
(or a short history) the CURRENT mask is returned unfiltered. -/
def apply_persistence_filter (persistence_frames : ℕ)
    (motion_history : List (Option Mask)) (motion_mask : Mask)
    (frame_index : ℕ) : Option Mask :=
  if frame_index < persistence_frames then some motion_mask
  else if motion_history.length < persistence_frames then some motion_mask
  else
    foldMasks
      (lastSlice motion_history (persistence_frames - 1) ++ [some motion_mask])
      (List.replicate motion_mask.length true)

/-- The motion mask `_enhance_single_frame_filtered` returns for one frame
(lines 152-157 and 195): the persistence-filtered mask, or `None` when it
is `None` or empty; this is also the value stored into `motion_history`. -/
def enhanceStepMask (persistence_frames : ℕ) (motion_history : List (Option Mask))
    (filtered_mask : Mask) (frame_index : ℕ) : Option Mask :=
  match apply_persistence_filter persistence_frames motion_history
      filtered_mask frame_index with
  | none => none
  | some m => if m.any id then some m else none

/-- The per-frame loop of `enhance_frame_sequence` (lines 45-65), returning
each frame's `motion_enhanced` flag (line 63:
`motion_mask is not None and np.any(motion_mask)`). -/
def enhanceFlagsLoop (persistence_frames : ℕ) :
    List Mask → ℕ → List (Option Mask) → List Bool
  | [], _, _ => []
  | f :: rest, i, history =>
    (match enhanceStepMask persistence_frames history f i with
      | none => false
      | some m => m.any id) ::
      enhanceFlagsLoop persistence_frames rest (i + 1)
        (history ++ [enhanceStepMask persistence_frames history f i])

/-- Source: `enhance_frame_sequence` flags: frame 0 is passed through with no
`motion_enhanced` key (treated as `false`), and the loop starts at frame 1
with `motion_history = [None]` (lines 42-43). -/
def enhanceFlags (persistence_frames : ℕ) (filtered_masks : List Mask) :
    List Bool :=
  false :: enhanceFlagsLoop persistence_frames filtered_masks 1 [none]

theorem andMask_replicate_true (l : List Bool) :
    andMask (List.replicate l.length true) l = l := by
  induction l with
  | nil => rfl
  | cons x xs ih =>
    simp only [List.length_cons, List.replicate_succ, andMask, List.zipWith_cons_cons]
    rw [show (and true x) = x from Bool.true_and x]
    exact congrArg (x :: ·) ih

theorem andMask_any_false_left :
    ∀ (f1 f2 : List Bool), f1.any id = false → (andMask f1 f2).any id = false
  | [], f2, _ => by cases f2 <;> rfl
  | x :: xs, [], _ => rfl
  | x :: xs, y :: ys, h => by
    simp only [List.any_cons, Bool.or_eq_false_iff, id] at h
    simp only [andMask, List.zipWith_cons_cons, List.any_cons, h.1,
      Bool.false_and, Bool.false_or, id]
    exact andMask_any_false_left xs ys h.2

theorem drop_length_sub_one {α : Type} :
    ∀ (l : List α) (x : α), l.getLast? = some x → l.drop (l.length - 1) = [x]
  | [], x, h => by cases h
  | [a], x, h => by
    simp at h
    simp [h]
  | a :: b :: l, x, h => by
    rw [List.getLast?_cons_cons] at h
    have := drop_length_sub_one (b :: l) x h
    simpa using this

/-- C2 counterexample: with `persistence_frames = 2`, a sequence whose
frame 1 has a one-pixel filtered mask — so the motion region is present in
only one frame, and the required prior mask (frame 0's) is unavailable
(`None`) — still gets `motion_enhanced = true` at frame 1: lines 260-262 of
src/motion_enhancer.py return the mask unfiltered for
`frame_index < persistence_frames` instead of skipping the annotation, so
the claim's "too early in the sequence means no annotation" is false. -/
theorem claim2_persistence_counterexample :
    enhanceFlags MOTION_PERSISTENCE_FRAMES [[true]] = [false, true] := rfl


/-- The first three flags of a sequence, unfolded. -/
theorem enhanceFlags_cons_cons (p : ℕ) (f1 f2 : Mask) (rest : List Mask) :
    enhanceFlags p (f1 :: f2 :: rest) =
      false ::
      (match enhanceStepMask p [none] f1 1 with
        | none => false | some m => m.any id) ::
      (match enhanceStepMask p [none, enhanceStepMask p [none] f1 1] f2 2 with
        | none => false | some m => m.any id) ::
      enhanceFlagsLoop p rest 3
        [none, enhanceStepMask p [none] f1 1,
          enhanceStepMask p [none, enhanceStepMask p [none] f1 1] f2 2] := rfl

/-- C2 amended claim, per frame index:
frames with `frame_index < persistence_frames` (i.e. frame 1) bypass the
persistence filter and are annotated exactly when their own filtered mask
is non-empty; from frame 2 on the filter compares the current filtered mask
with the previous frame's STORED (post-persistence) mask — at frame 2 that
stored mask is frame 1's filtered mask, so frame 2 is annotated iff some
pixel is present in the filtered masks of both consecutive frames, and a
region present in only one of them never produces an annotation there; and
whenever the required prior stored mask is unavailable (`None`), the frame
receives no annotation — a value of `none`, not an exception. -/
theorem claim2_persistence_amended
    (f1 f2 : Mask) (hlen : f1.length = f2.length) (rest : List Mask)
    (h : List (Option Mask)) (f : Mask) (i : ℕ)
    (hi : MOTION_PERSISTENCE_FRAMES ≤ i)
    (hhl : MOTION_PERSISTENCE_FRAMES ≤ h.length)
    (hlast : h.getLast? = some none) :
    (enhanceFlags MOTION_PERSISTENCE_FRAMES (f1 :: f2 :: rest)).get? 1 =
      some (f1.any id) ∧
    (enhanceFlags MOTION_PERSISTENCE_FRAMES (f1 :: f2 :: rest)).get? 2 =
      some ((andMask f1 f2).any id) ∧
    enhanceStepMask MOTION_PERSISTENCE_FRAMES h f i = none := by
  have hstep1 : enhanceStepMask MOTION_PERSISTENCE_FRAMES [none] f1 1 =
      (if f1.any id then some f1 else none) := rfl
  have hstepnone : enhanceStepMask MOTION_PERSISTENCE_FRAMES h f i = none := by
    unfold enhanceStepMask apply_persistence_filter
    rw [if_neg (by omega), if_neg (by omega)]
    have hslice : lastSlice h (MOTION_PERSISTENCE_FRAMES - 1) = [none] := by
      unfold lastSlice MOTION_PERSISTENCE_FRAMES
      exact drop_length_sub_one h none hlast
    rw [hslice]
    rfl
  have hfold : foldMasks [some f1, some f2] (List.replicate f2.length true) =
      (if (andMask f1 f2).any id then some (andMask f1 f2) else none) := by
    show foldMasks [some f2] (andMask (List.replicate f2.length true) f1) = _
    rw [← hlen, andMask_replicate_true]
    rfl
  have hstep2 : enhanceStepMask MOTION_PERSISTENCE_FRAMES [none, some f1] f2 2 =
      (if (andMask f1 f2).any id then some (andMask f1 f2) else none) := by
    unfold enhanceStepMask
    have happly : apply_persistence_filter MOTION_PERSISTENCE_FRAMES
        [none, some f1] f2 2 =
        foldMasks [some f1, some f2] (List.replicate f2.length true) := rfl
    rw [happly, hfold]
    by_cases h2 : (andMask f1 f2).any id
    · simp [h2]
    · simp [eq_false_of_ne_true h2]
  have hstep2none : enhanceStepMask MOTION_PERSISTENCE_FRAMES
      [none, none] f2 2 = none := rfl
  refine ⟨?_, ?_, hstepnone⟩
  · rw [enhanceFlags_cons_cons, hstep1]
    by_cases h1 : f1.any id
    · rw [if_pos h1]
      show some (f1.any id) = _
      rfl
    · rw [if_neg h1]
      show some false = some (f1.any id)
      rw [eq_false_of_ne_true h1]
  · rw [enhanceFlags_cons_cons, hstep1]
    by_cases h1 : f1.any id
    · rw [if_pos h1, hstep2]
      by_cases h2 : (andMask f1 f2).any id
      · rw [if_pos h2]
        show some ((andMask f1 f2).any id) = _
        rfl
      · rw [if_neg h2]
        show some false = some ((andMask f1 f2).any id)
        rw [eq_false_of_ne_true h2]
    · rw [if_neg h1, hstep2none]
      show some false = some ((andMask f1 f2).any id)
      rw [andMask_any_false_left f1 f2 (eq_false_of_ne_true h1)]

theorem claim2_persistence_amended_witness :
    (([true, false] : Mask).length = ([false, true] : Mask).length ∧
      MOTION_PERSISTENCE_FRAMES ≤ 2 ∧
      MOTION_PERSISTENCE_FRAMES ≤ ([none, none] : List (Option Mask)).length ∧
      ([none, none] : List (Option Mask)).getLast? = some none) ∧
    ((enhanceFlags MOTION_PERSISTENCE_FRAMES
        ([true, false] :: [false, true] :: [])).get? 1 =
      some (([true, false] : Mask).any id) ∧
    (enhanceFlags MOTION_PERSISTENCE_FRAMES
        ([true, false] :: [false, true] :: [])).get? 2 =
      some ((andMask [true, false] [false, true]).any id) ∧
    enhanceStepMask MOTION_PERSISTENCE_FRAMES [none, none] [true] 2 = none) :=
  ⟨⟨by decide, by decide, by decide, by decide⟩,
    claim2_persistence_amended [true, false] [false, true] (by decide) []
      [none, none] [true] 2 (by decide) (by decide) (by decide)⟩

/-! Section: MotionEnhancer rectangle merging (src/motion_enhancer.py lines 197-255)

Rectangles are `[x1, y1, x2, y2]` integer boxes from `cv2.boundingRect`.
The DFS of `_merge_overlapping_rectangles` is a while loop over an explicit
stack; it is modelled with a structural fuel argument, always called with
fuel at least the loop's decreasing measure, so the model never hits the
fuel-exhausted branch. -/

structure Rect where
  x1 : ℤ
  y1 : ℤ
  x2 : ℤ
  y2 : ℤ
deriving DecidableEq, Repr, Inhabited

/-- Source: `_rectangles_overlap` (lines 246-255): rectangles do NOT overlap iff one
is entirely to the left, right, above, or below the other. -/
def rectanglesOverlap (rect1 rect2 : Rect) : Bool :=
  ¬(rect1.x2 ≤ rect2.x1 ∨ rect2.x2 ≤ rect1.x1 ∨
    rect1.y2 ≤ rect2.y1 ∨ rect2.y2 ≤ rect1.y1)

/-- The adjacency lists built at lines 207-212.  The source appends both
directions while scanning pairs `i < j`; only the resulting neighbor SET is
consumed (for pushing unvisited neighbors), so it is modelled as a filter
over all indices. -/
def nbrs (rectangles : List Rect) (i : ℕ) : List ℕ :=
  (List.range rectangles.length).filter
    (fun j => j ≠ i ∧
      rectanglesOverlap (rectangles.getD i default) (rectangles.getD j default))

/-- The stack-based DFS of lines 222-233: pop; skip if visited; otherwise
mark visited, record in the component, and push the unvisited neighbors. -/
def dfsGo (adj : ℕ → List ℕ) :
    ℕ → List Bool → List ℕ → List ℕ → List Bool × List ℕ
  | 0, visited, _, component => (visited, component)
  | _ + 1, visited, [], component => (visited, component)
  | fuel + 1, visited, current :: stack, component =>
    if visited.getD current true then dfsGo adj fuel visited stack component
    else
      dfsGo adj fuel (visited.set current true)
        (((adj current).filter
          (fun j => !((visited.set current true).getD j true))).reverse ++ stack)
        (component ++ [current])

/-- An upper bound for the DFS loop measure
`count_unvisited * (n + 1) + stack_length` at entry (`stack = [current]`). -/
def dfsFuel (visited : List Bool) : ℕ :=
  visited.count false * (visited.length + 1) + 1

/-- Source: `min(...)` / `max(...)` over a non-empty python generator. -/
def listMin : List ℤ → ℤ
  | [] => 0
  | x :: xs => xs.foldl min x

def listMax : List ℤ → ℤ
  | [] => 0
  | x :: xs => xs.foldl max x

/-- The component bounding box of lines 235-242. -/
def boundingRect (rectangles : List Rect) (component : List ℕ) : Rect :=
  { x1 := listMin (component.map (fun idx => (rectangles.getD idx default).x1))
    y1 := listMin (component.map (fun idx => (rectangles.getD idx default).y1))
    x2 := listMax (component.map (fun idx => (rectangles.getD idx default).x2))
    y2 := listMax (component.map (fun idx => (rectangles.getD idx default).y2)) }

/-- The outer loop of lines 218-242: one DFS (and one merged box) per
still-unvisited index, in ascending index order. -/
def mergeLoop (rectangles : List Rect) (adj : ℕ → List ℕ) :
    List ℕ → List Bool → List Rect
  | [], _ => []
  | i :: rest, visited =>
    if visited.getD i true then mergeLoop rectangles adj rest visited
    else
      boundingRect rectangles (dfsGo adj (dfsFuel visited) visited [i] []).2 ::
        mergeLoop rectangles adj rest
          (dfsGo adj (dfsFuel visited) visited [i] []).1

/-- Source: `_merge_overlapping_rectangles` (src/motion_enhancer.py lines 197-244). -/
def merge_overlapping_rectangles (rectangles : List Rect) : List Rect :=
  if rectangles = [] then []
  else if rectangles.length = 1 then rectangles
  else
    mergeLoop rectangles (nbrs rectangles) (List.range rectangles.length)
      (List.replicate rectangles.length false)

/-- Indices `i` and `j` hold overlapping rectangles. -/
def adjRel (rectangles : List Rect) (i j : ℕ) : Prop :=
  i < rectangles.length ∧ j < rectangles.length ∧ i ≠ j ∧
    rectanglesOverlap (rectangles.getD i default) (rectangles.getD j default) = true

/-- Same connected component of the pairwise-overlap relation. -/
def reach (rectangles : List Rect) : ℕ → ℕ → Prop :=
  Relation.ReflTransGen (adjRel rectangles)

example : merge_overlapping_rectangles
    [⟨0, 0, 12, 10⟩, ⟨10, 0, 22, 10⟩, ⟨20, 0, 30, 10⟩] = [⟨0, 0, 30, 10⟩] := by
  decide

example : merge_overlapping_rectangles
    [⟨0, 0, 1, 1⟩, ⟨5, 5, 6, 6⟩] = [⟨0, 0, 1, 1⟩, ⟨5, 5, 6, 6⟩] := by
  decide

theorem getD_true_eq_false_lt {l : List Bool} {i : ℕ}
    (h : l.getD i true = false) : i < l.length := by
  by_contra hc
  push_neg at hc
  rw [List.getD_eq_getElem?_getD, List.getElem?_eq_none (by omega)] at h
  simp at h

theorem getD_set_true_iff {l : List Bool} {cur : ℕ}
    (hcur : l.getD cur true = false) (j : ℕ) :
    ((l.set cur true).getD j true = true) ↔
      (l.getD j true = true ∨ j = cur) := by
  have hlt : cur < l.length := getD_true_eq_false_lt hcur
  by_cases hj : j = cur
  · subst hj
    rw [List.getD_eq_getElem?_getD, List.getElem?_set_eq_of_lt true hlt]
    simp
  · rw [List.getD_eq_getElem?_getD, List.getElem?_set_ne (fun hq => hj hq.symm),
      ← List.getD_eq_getElem?_getD]
    simp [hj]

theorem count_false_set_true :
    ∀ (l : List Bool) (i : ℕ), l.getD i true = false →
      (l.set i true).count false + 1 = l.count false
  | [], i, h => by simp [List.getD] at h
  | x :: xs, 0, h => by
    simp only [List.getD_cons_zero] at h
    subst h
    simp [List.count_cons]
  | x :: xs, i + 1, h => by
    have ih := count_false_set_true xs i (by simpa [List.getD_cons_succ] using h)
    simp only [List.set_cons_succ, List.count_cons]
    omega

theorem nbrs_length_le (rectangles : List Rect) (i : ℕ) :
    (nbrs rectangles i).length ≤ rectangles.length := by
  unfold nbrs
  exact le_trans (List.length_filter_le _ _) (by rw [List.length_range])

theorem rectanglesOverlap_comm (a b : Rect) :
    rectanglesOverlap a b = rectanglesOverlap b a := by
  simp only [rectanglesOverlap, decide_eq_decide]
  tauto

theorem adjRel_symm {rectangles : List Rect} {i j : ℕ}
    (h : adjRel rectangles i j) : adjRel rectangles j i :=
  ⟨h.2.1, h.1, h.2.2.1.symm, by rw [rectanglesOverlap_comm]; exact h.2.2.2⟩

theorem reach_symm {rectangles : List Rect} {i j : ℕ}
    (h : reach rectangles i j) : reach rectangles j i := by
  induction h with
  | refl => exact Relation.ReflTransGen.refl
  | tail _ hstep ih =>
    exact Relation.ReflTransGen.trans
      (Relation.ReflTransGen.single (adjRel_symm hstep)) ih

theorem mem_nbrs (rectangles : List Rect) {i j : ℕ} (hi : i < rectangles.length) :
    j ∈ nbrs rectangles i ↔ adjRel rectangles i j := by
  unfold nbrs adjRel
  rw [List.mem_filter, List.mem_range]
  constructor
  · intro ⟨hj, hcond⟩
    simp only [decide_eq_true_eq, Bool.and_eq_true] at hcond
    exact ⟨hi, hj, fun hq => hcond.1 hq.symm, hcond.2⟩
  · intro ⟨_, hj, hne, hov⟩
    refine ⟨hj, ?_⟩
    simp only [decide_eq_true_eq, Bool.and_eq_true]
    exact ⟨fun hq => hne hq.symm, hov⟩

/-- DFS loop invariant: starting from a state whose component is reachable
from `root`, whose stack holds reachable valid indices, and whose visited
set is exactly the closed initial set `V0` plus the component, the loop
terminates within the fuel bound in a state where the component is still
reachable from `root` and closed under adjacency, `root` is visited, and
the visited set is `V0` plus the component. -/
theorem dfsGo_master (rs : List Rect) (V0 : ℕ → Prop) (root : ℕ)
    (hclosed : ∀ j k, V0 j → adjRel rs j k → V0 k) :
    ∀ (fuel : ℕ) (visited : List Bool) (stack comp : List ℕ),
      visited.count false * (rs.length + 1) + stack.length ≤ fuel →
      visited.length = rs.length →
      (∀ j, visited.getD j true = true ↔ (V0 j ∨ j ∈ comp)) →
      (∀ j ∈ comp, reach rs root j ∧ j < rs.length ∧ ¬ V0 j) →
      (∀ j ∈ comp, ∀ k, adjRel rs j k →
        visited.getD k true = true ∨ k ∈ stack) →
      (∀ j ∈ stack, reach rs root j ∧ j < rs.length) →
      (visited.getD root true = true ∨ root ∈ stack) →
      ((dfsGo (nbrs rs) fuel visited stack comp).1.length = rs.length ∧
       (∀ j, (dfsGo (nbrs rs) fuel visited stack comp).1.getD j true = true ↔
         (V0 j ∨ j ∈ (dfsGo (nbrs rs) fuel visited stack comp).2)) ∧
       (∀ j ∈ (dfsGo (nbrs rs) fuel visited stack comp).2,
         reach rs root j ∧ j < rs.length ∧ ¬ V0 j) ∧
       (∀ j ∈ (dfsGo (nbrs rs) fuel visited stack comp).2, ∀ k,
         adjRel rs j k →
         (dfsGo (nbrs rs) fuel visited stack comp).1.getD k true = true) ∧
       (dfsGo (nbrs rs) fuel visited stack comp).1.getD root true = true ∧
       (∀ j ∈ comp, j ∈ (dfsGo (nbrs rs) fuel visited stack comp).2)) := by
  intro fuel
  induction fuel with
  | zero =>
    intro visited stack comp hfuel hlen hvis hcomp hfront hstack hroot
    have hstack0 : stack = [] := by
      cases stack with
      | nil => rfl
      | cons a s => simp at hfuel
    subst hstack0
    show (visited, comp).1.length = rs.length ∧ _
    refine ⟨hlen, hvis, hcomp, ?_, ?_, fun j hj => hj⟩
    · intro j hj k hk
      rcases hfront j hj k hk with h | h
      · exact h
      · cases h
    · rcases hroot with h | h
      · exact h
      · cases h
  | succ f ih =>
    intro visited stack comp hfuel hlen hvis hcomp hfront hstack hroot
    cases stack with
    | nil =>
      show (visited, comp).1.length = rs.length ∧ _
      refine ⟨hlen, hvis, hcomp, ?_, ?_, fun j hj => hj⟩
      · intro j hj k hk
        rcases hfront j hj k hk with h | h
        · exact h
        · cases h
      · rcases hroot with h | h
        · exact h
        · cases h
    | cons cur rest =>
      have hstep : dfsGo (nbrs rs) (f + 1) visited (cur :: rest) comp =
          (if visited.getD cur true then dfsGo (nbrs rs) f visited rest comp
          else dfsGo (nbrs rs) f (visited.set cur true)
            ((((nbrs rs) cur).filter
              (fun j => !((visited.set cur true).getD j true))).reverse ++ rest)
            (comp ++ [cur])) := rfl
      rw [hstep]
      by_cases hc : visited.getD cur true = true
      · rw [if_pos hc]
        apply ih visited rest comp
        · simp only [List.length_cons] at hfuel
          omega
        · exact hlen
        · exact hvis
        · exact hcomp
        · intro j hj k hk
          rcases hfront j hj k hk with h | h
          · exact Or.inl h
          · rw [List.mem_cons] at h
            rcases h with rfl | h
            · exact Or.inl hc
            · exact Or.inr h
        · exact fun j hj => hstack j (List.mem_cons_of_mem cur hj)
        · rcases hroot with h | h
          · exact Or.inl h
          · rw [List.mem_cons] at h
            rcases h with rfl | h
            · exact Or.inl hc
            · exact Or.inr h
      · have hcf : visited.getD cur true = false := by
          cases hgd : visited.getD cur true
          · rfl
          · exact absurd hgd hc
        rw [if_neg hc]
        have hcurlt : cur < rs.length := hlen ▸ getD_true_eq_false_lt hcf
        have hsetiff := getD_set_true_iff hcf
        have hcurV0 : ¬ V0 cur ∧ cur ∉ comp := by
          have := (hvis cur).not
          rw [hcf] at this
          simp only [Bool.false_eq_true, not_false_iff, true_iff] at this
          push_neg at this
          exact this
        have hcurreach : reach rs root cur ∧ cur < rs.length :=
          hstack cur (List.mem_cons_self cur rest)
        have hres := ih (visited.set cur true)
          ((((nbrs rs) cur).filter
            (fun j => !((visited.set cur true).getD j true))).reverse ++ rest)
          (comp ++ [cur]) ?_ ?_ ?_ ?_ ?_ ?_ ?_
        · exact ⟨hres.1, hres.2.1, hres.2.2.1, hres.2.2.2.1, hres.2.2.2.2.1,
            fun j hj => hres.2.2.2.2.2 j (List.mem_append_left _ hj)⟩
        · -- fuel accounting
          have hcount := count_false_set_true visited cur hcf
          have hpush : ((((nbrs rs) cur).filter
              (fun j => !((visited.set cur true).getD j true))).reverse ++
                rest).length ≤ rs.length + rest.length := by
            rw [List.length_append, List.length_reverse]
            have h1 := List.length_filter_le
              (fun j => !((visited.set cur true).getD j true)) ((nbrs rs) cur)
            have h2 := nbrs_length_le rs cur
            omega
          simp only [List.length_cons] at hfuel
          have hcpos : 1 ≤ visited.count false := by omega
          nlinarith [hfuel, hcount, hpush]
        · rw [List.length_set]
          exact hlen
        · intro j
          rw [hsetiff j, hvis j, List.mem_append, List.mem_singleton]
          tauto
        · intro j hj
          rw [List.mem_append, List.mem_singleton] at hj
          rcases hj with hj | rfl
          · exact hcomp j hj
          · exact ⟨hcurreach.1, hcurlt, hcurV0.1⟩
        · intro j hj k hk
          rw [List.mem_append, List.mem_singleton] at hj
          rcases hj with hj | rfl
          · rcases hfront j hj k hk with h | h
            · exact Or.inl ((hsetiff k).2 (Or.inl h))
            · rw [List.mem_cons] at h
              rcases h with rfl | h
              · exact Or.inl ((hsetiff k).2 (Or.inr rfl))
              · exact Or.inr (List.mem_append_right _ h)
          · by_cases hkv : (visited.set j true).getD k true = true
            · exact Or.inl hkv
            · refine Or.inr (List.mem_append_left _ ?_)
              rw [List.mem_reverse, List.mem_filter]
              refine ⟨(mem_nbrs rs hcurlt).2 hk, ?_⟩
              simp only [Bool.not_eq_true'] at hkv ⊢
              cases hgd : (visited.set j true).getD k true
              · rfl
              · exact absurd hgd hkv
        · intro j hj
          rw [List.mem_append] at hj
          rcases hj with hj | hj
          · rw [List.mem_reverse, List.mem_filter] at hj
            have hadj : adjRel rs cur j := (mem_nbrs rs hcurlt).1 hj.1
            exact ⟨Relation.ReflTransGen.tail hcurreach.1 hadj, hadj.2.1⟩
          · exact hstack j (List.mem_cons_of_mem cur hj)
        · rcases hroot with h | h
          · exact Or.inl ((hsetiff root).2 (Or.inl h))
          · rw [List.mem_cons] at h
            rcases h with rfl | h
            · exact Or.inl ((hsetiff root).2 (Or.inr rfl))
            · exact Or.inr (List.mem_append_right _ h)

/-- One DFS from an unvisited root, over a visited set closed under
adjacency, collects exactly the connected component of the root. -/
theorem dfs_component (rs : List Rect) (visited : List Bool) (root : ℕ)
    (hlen : visited.length = rs.length)
    (hclosed : ∀ j k, visited.getD j true = true → adjRel rs j k →
      visited.getD k true = true)
    (hroot0 : visited.getD root true = false) :
    (dfsGo (nbrs rs) (dfsFuel visited) visited [root] []).1.length = rs.length ∧
    (∀ j, (dfsGo (nbrs rs) (dfsFuel visited) visited [root] []).1.getD j true =
        true ↔
      (visited.getD j true = true ∨
        j ∈ (dfsGo (nbrs rs) (dfsFuel visited) visited [root] []).2)) ∧
    (∀ j, j ∈ (dfsGo (nbrs rs) (dfsFuel visited) visited [root] []).2 ↔
      reach rs root j) := by
  have hrootlt : root < rs.length := hlen ▸ getD_true_eq_false_lt hroot0
  have hmaster := dfsGo_master rs (fun j => visited.getD j true = true) root
    hclosed (dfsFuel visited) visited [root] []
    (by unfold dfsFuel; rw [hlen]; simp)
    hlen
    (by intro j; simp)
    (by intro j hj; cases hj)
    (by intro j hj; cases hj)
    (by
      intro j hj
      rw [List.mem_singleton] at hj
      subst hj
      exact ⟨Relation.ReflTransGen.refl, hrootlt⟩)
    (Or.inr (List.mem_singleton_self root))
  obtain ⟨g1, g2, g3, g4, g5, _⟩ := hmaster
  have hrootmem : root ∈ (dfsGo (nbrs rs) (dfsFuel visited) visited [root] []).2 := by
    rcases (g2 root).1 g5 with h | h
    · rw [hroot0] at h
      cases h
    · exact h
  refine ⟨g1, g2, fun j => ⟨fun hj => (g3 j hj).1, fun hj => ?_⟩⟩
  induction hj with
  | refl => exact hrootmem
  | tail hreach hstep ih =>
    rename_i b c
    have hcvis := g4 b ih c hstep
    rcases (g2 c).1 hcvis with h | h
    · exfalso
      have hVb := hclosed c b h (adjRel_symm hstep)
      exact (g3 b ih).2.2 hVb
    · exact h

/-- The outer component loop: one merged box per connected component among
the still-unvisited listed indices. -/
theorem mergeLoop_spec (rs : List Rect) :
    ∀ (idxs : List ℕ) (visited : List Bool),
      visited.length = rs.length →
      (∀ j k, visited.getD j true = true → adjRel rs j k →
        visited.getD k true = true) →
      ∃ comps : List (List ℕ),
        mergeLoop rs (nbrs rs) idxs visited = comps.map (boundingRect rs) ∧
        (∀ C ∈ comps, ∃ r, visited.getD r true = false ∧ r < rs.length ∧
          (∀ j, j ∈ C ↔ reach rs r j)) ∧
        (∀ i ∈ idxs, visited.getD i true = false → ∃ C ∈ comps, i ∈ C) ∧
        comps.Pairwise (fun C D => ∀ a ∈ C, ∀ b ∈ D, ¬ reach rs a b) := by
  intro idxs
  induction idxs with
  | nil =>
    intro visited hlen hclosed
    exact ⟨[], rfl, fun C hC => absurd hC (List.not_mem_nil C),
      fun i hi => absurd hi (List.not_mem_nil i), List.Pairwise.nil⟩
  | cons i rest ih =>
    intro visited hlen hclosed
    show ∃ comps, (if visited.getD i true then mergeLoop rs (nbrs rs) rest visited
      else _) = _ ∧ _
    by_cases hi : visited.getD i true = true
    · rw [if_pos hi]
      obtain ⟨comps, h1, h2, h3, h4⟩ := ih visited hlen hclosed
      refine ⟨comps, h1, h2, ?_, h4⟩
      intro i' hi' hunv
      rw [List.mem_cons] at hi'
      rcases hi' with rfl | hi'
      · rw [hi] at hunv
        cases hunv
      · exact h3 i' hi' hunv
    · have hif : visited.getD i true = false := by
        cases hgd : visited.getD i true
        · rfl
        · exact absurd hgd hi
      rw [if_neg hi]
      obtain ⟨d1, d2, d3⟩ := dfs_component rs visited i hlen hclosed hif
      have hclosed' : ∀ j k,
          (dfsGo (nbrs rs) (dfsFuel visited) visited [i] []).1.getD j true = true →
          adjRel rs j k →
          (dfsGo (nbrs rs) (dfsFuel visited) visited [i] []).1.getD k true = true := by
        intro j k hj hjk
        rcases (d2 j).1 hj with h | h
        · exact (d2 k).2 (Or.inl (hclosed j k h hjk))
        · exact (d2 k).2 (Or.inr ((d3 k).2
            (Relation.ReflTransGen.tail ((d3 j).1 h) hjk)))
      obtain ⟨comps, h1, h2, h3, h4⟩ := ih
        (dfsGo (nbrs rs) (dfsFuel visited) visited [i] []).1 d1 hclosed'
      refine ⟨(dfsGo (nbrs rs) (dfsFuel visited) visited [i] []).2 :: comps,
        ?_, ?_, ?_, ?_⟩
      · rw [List.map_cons, h1]
      · intro C hC
        rw [List.mem_cons] at hC
        rcases hC with rfl | hC
        · exact ⟨i, hif, hlen ▸ getD_true_eq_false_lt hif, d3⟩
        · obtain ⟨r, hr1, hr2, hr3⟩ := h2 C hC
          refine ⟨r, ?_, hr2, hr3⟩
          cases hgd : visited.getD r true
          · rfl
          · exact absurd ((d2 r).2 (Or.inl hgd)) (by rw [hr1]; simp)
      · intro i' hi' hunv
        rw [List.mem_cons] at hi'
        rcases hi' with rfl | hi'
        · exact ⟨_, List.mem_cons_self _ _, (d3 i').2 Relation.ReflTransGen.refl⟩
        · by_cases hv' : (dfsGo (nbrs rs) (dfsFuel visited) visited [i] []).1.getD
              i' true = true
          · rcases (d2 i').1 hv' with h | h
            · rw [hunv] at h
              cases h
            · exact ⟨_, List.mem_cons_self _ _, h⟩
          · have hv'f : (dfsGo (nbrs rs) (dfsFuel visited) visited [i] []).1.getD
                i' true = false := by
              cases hgd : (dfsGo (nbrs rs) (dfsFuel visited) visited [i] []).1.getD
                  i' true
              · rfl
              · exact absurd hgd hv'
            obtain ⟨C, hC, hiC⟩ := h3 i' hi' hv'f
            exact ⟨C, List.mem_cons_of_mem _ hC, hiC⟩
      · refine List.Pairwise.cons ?_ h4
        intro D hD a ha b hb hreachab
        obtain ⟨r', hr'1, hr'2, hr'3⟩ := h2 D hD
        have hra : reach rs i a := (d3 a).1 ha
        have hrb : reach rs r' b := (hr'3 b).1 hb
        have hir' : reach rs i r' :=
          Relation.ReflTransGen.trans hra
            (Relation.ReflTransGen.trans hreachab (reach_symm hrb))
        have : (dfsGo (nbrs rs) (dfsFuel visited) visited [i] []).1.getD r' true =
            true := (d2 r').2 (Or.inr ((d3 r').2 hir'))
        rw [hr'1] at this
        cases this

theorem foldl_min_le_init : ∀ (l : List ℤ) (a : ℤ), l.foldl min a ≤ a
  | [], _ => le_refl _
  | x :: xs, a => le_trans (foldl_min_le_init xs (min a x)) (min_le_left a x)

theorem foldl_min_le_mem : ∀ (l : List ℤ) (a x : ℤ), x ∈ l → l.foldl min a ≤ x
  | y :: ys, a, x, h => by
    rw [List.mem_cons] at h
    rcases h with rfl | h
    · exact le_trans (foldl_min_le_init ys (min a x)) (min_le_right a x)
    · exact foldl_min_le_mem ys (min a y) x h

theorem foldl_min_mem_or : ∀ (l : List ℤ) (a : ℤ),
    l.foldl min a = a ∨ l.foldl min a ∈ l
  | [], _ => Or.inl rfl
  | x :: xs, a => by
    rcases foldl_min_mem_or xs (min a x) with h | h
    · rcases min_choice a x with hm | hm
      · exact Or.inl (h.trans hm)
      · refine Or.inr ?_
        show List.foldl min (min a x) xs ∈ x :: xs
        rw [h, hm]
        exact List.mem_cons_self x xs
    · exact Or.inr (List.mem_cons_of_mem x h)

theorem foldl_max_init_le : ∀ (l : List ℤ) (a : ℤ), a ≤ l.foldl max a
  | [], _ => le_refl _
  | x :: xs, a => le_trans (le_max_left a x) (foldl_max_init_le xs (max a x))

theorem foldl_max_mem_le : ∀ (l : List ℤ) (a x : ℤ), x ∈ l → x ≤ l.foldl max a
  | y :: ys, a, x, h => by
    rw [List.mem_cons] at h
    rcases h with rfl | h
    · exact le_trans (le_max_right a x) (foldl_max_init_le ys (max a x))
    · exact foldl_max_mem_le ys (max a y) x h

theorem foldl_max_mem_or : ∀ (l : List ℤ) (a : ℤ),
    l.foldl max a = a ∨ l.foldl max a ∈ l
  | [], _ => Or.inl rfl
  | x :: xs, a => by
    rcases foldl_max_mem_or xs (max a x) with h | h
    · rcases max_choice a x with hm | hm
      · exact Or.inl (h.trans hm)
      · refine Or.inr ?_
        show List.foldl max (max a x) xs ∈ x :: xs
        rw [h, hm]
        exact List.mem_cons_self x xs
    · exact Or.inr (List.mem_cons_of_mem x h)

theorem listMin_le_mem (l : List ℤ) (x : ℤ) (hx : x ∈ l) : listMin l ≤ x := by
  cases l with
  | nil => cases hx
  | cons y ys =>
    rw [List.mem_cons] at hx
    rcases hx with rfl | hx
    · exact foldl_min_le_init ys x
    · exact foldl_min_le_mem ys y x hx

theorem listMin_mem (l : List ℤ) (hl : l ≠ []) : listMin l ∈ l := by
  cases l with
  | nil => exact absurd rfl hl
  | cons y ys =>
    rcases foldl_min_mem_or ys y with h | h
    · show List.foldl min y ys ∈ y :: ys
      rw [h]
      exact List.mem_cons_self y ys
    · exact List.mem_cons_of_mem y h

theorem listMax_mem_le (l : List ℤ) (x : ℤ) (hx : x ∈ l) : x ≤ listMax l := by
  cases l with
  | nil => cases hx
  | cons y ys =>
    rw [List.mem_cons] at hx
    rcases hx with rfl | hx
    · exact foldl_max_init_le ys x
    · exact foldl_max_mem_le ys y x hx

theorem listMax_mem (l : List ℤ) (hl : l ≠ []) : listMax l ∈ l := by
  cases l with
  | nil => exact absurd rfl hl
  | cons y ys =>
    rcases foldl_max_mem_or ys y with h | h
    · show List.foldl max y ys ∈ y :: ys
      rw [h]
      exact List.mem_cons_self y ys
    · exact List.mem_cons_of_mem y h

/-- The merged box of a component covers every member rectangle. -/
theorem boundingRect_bounds (rs : List Rect) (C : List ℕ) (a : ℕ) (ha : a ∈ C) :
    (boundingRect rs C).x1 ≤ (rs.getD a default).x1 ∧
    (boundingRect rs C).y1 ≤ (rs.getD a default).y1 ∧
    (rs.getD a default).x2 ≤ (boundingRect rs C).x2 ∧
    (rs.getD a default).y2 ≤ (boundingRect rs C).y2 :=
  ⟨listMin_le_mem _ _ (List.mem_map_of_mem _ ha),
   listMin_le_mem _ _ (List.mem_map_of_mem _ ha),
   listMax_mem_le _ _ (List.mem_map_of_mem _ ha),
   listMax_mem_le _ _ (List.mem_map_of_mem _ ha)⟩

/-- The merged box of a component is tight: each side is attained by some
member rectangle. -/
theorem boundingRect_attained (rs : List Rect) (C : List ℕ) (hC : C ≠ []) :
    (∃ a ∈ C, (boundingRect rs C).x1 = (rs.getD a default).x1) ∧
    (∃ a ∈ C, (boundingRect rs C).y1 = (rs.getD a default).y1) ∧
    (∃ a ∈ C, (boundingRect rs C).x2 = (rs.getD a default).x2) ∧
    (∃ a ∈ C, (boundingRect rs C).y2 = (rs.getD a default).y2) := by
  have hne : ∀ (f : ℕ → ℤ), C.map f ≠ [] := by
    intro f h
    exact hC (List.map_eq_nil_iff.1 h)
  refine ⟨?_, ?_, ?_, ?_⟩
  · obtain ⟨a, ha, hv⟩ := List.mem_map.1 (listMin_mem _ (hne _))
    exact ⟨a, ha, hv.symm⟩
  · obtain ⟨a, ha, hv⟩ := List.mem_map.1 (listMin_mem _ (hne _))
    exact ⟨a, ha, hv.symm⟩
  · obtain ⟨a, ha, hv⟩ := List.mem_map.1 (listMax_mem _ (hne _))
    exact ⟨a, ha, hv.symm⟩
  · obtain ⟨a, ha, hv⟩ := List.mem_map.1 (listMax_mem _ (hne _))
    exact ⟨a, ha, hv.symm⟩

theorem replicate_false_getD (n j : ℕ) :
    (List.replicate n false).getD j true = (if j < n then false else true) := by
  induction n generalizing j with
  | zero => simp [List.getD]
  | succ m ih =>
    cases j with
    | zero => simp [List.replicate_succ]
    | succ j' =>
      rw [List.replicate_succ]
      show (List.replicate m false).getD j' true = _
      rw [ih j']
      simp only [Nat.succ_lt_succ_iff]

theorem reach_pair_eq {r : Rect} {j k : ℕ} (h : reach [r] j k) : j = k := by
  induction h with
  | refl => rfl
  | tail _ hstep ih =>
    exfalso
    obtain ⟨h1, h2, h3, _⟩ := hstep
    simp only [List.length_singleton] at h1 h2
    omega

/-- The C5 connected-component characterization of the rectangle merge. -/
def MergeComponentsSpec (rs : List Rect) : Prop :=
  ∃ comps : List (List ℕ),
    merge_overlapping_rectangles rs = comps.map (boundingRect rs) ∧
    (∀ C ∈ comps, C ≠ []) ∧
    (∀ C ∈ comps, ∃ r, r < rs.length ∧ (∀ j, j ∈ C ↔ reach rs r j)) ∧
    (∀ i, i < rs.length → ∃ C ∈ comps, i ∈ C) ∧
    comps.Pairwise (fun C D => ∀ a ∈ C, ∀ b ∈ D, ¬ reach rs a b) ∧
    (∀ C ∈ comps, ∀ a ∈ C,
      (boundingRect rs C).x1 ≤ (rs.getD a default).x1 ∧
      (boundingRect rs C).y1 ≤ (rs.getD a default).y1 ∧
      (rs.getD a default).x2 ≤ (boundingRect rs C).x2 ∧
      (rs.getD a default).y2 ≤ (boundingRect rs C).y2) ∧
    (∀ C ∈ comps,
      (∃ a ∈ C, (boundingRect rs C).x1 = (rs.getD a default).x1) ∧
      (∃ a ∈ C, (boundingRect rs C).y1 = (rs.getD a default).y1) ∧
      (∃ a ∈ C, (boundingRect rs C).x2 = (rs.getD a default).x2) ∧
      (∃ a ∈ C, (boundingRect rs C).y2 = (rs.getD a default).y2))

/-- C5: `_merge_overlapping_rectangles` partitions its input boxes into the
connected components of the pairwise-overlap relation and returns exactly
one box per component, equal to that component's tight union bound; the
merge is transitive — on the chain `A = (0,0,12,10)`, `B = (10,0,22,10)`,
`C = (20,0,30,10)` where `A` overlaps `B` and `B` overlaps `C` but `A` does
not overlap `C`, all three merge into the single tight box `(0,0,30,10)` —
while two disjoint boxes remain two separate boxes. -/
theorem claim5_rectangle_merge (rs : List Rect) :
    MergeComponentsSpec rs ∧
    (merge_overlapping_rectangles
        [⟨0, 0, 12, 10⟩, ⟨10, 0, 22, 10⟩, ⟨20, 0, 30, 10⟩] =
      [⟨0, 0, 30, 10⟩] ∧
     rectanglesOverlap ⟨0, 0, 12, 10⟩ ⟨10, 0, 22, 10⟩ = true ∧
     rectanglesOverlap ⟨10, 0, 22, 10⟩ ⟨20, 0, 30, 10⟩ = true ∧
     rectanglesOverlap ⟨0, 0, 12, 10⟩ ⟨20, 0, 30, 10⟩ = false) ∧
    (merge_overlapping_rectangles [⟨0, 0, 1, 1⟩, ⟨5, 5, 6, 6⟩] =
      [⟨0, 0, 1, 1⟩, ⟨5, 5, 6, 6⟩] ∧
     rectanglesOverlap ⟨0, 0, 1, 1⟩ ⟨5, 5, 6, 6⟩ = false) := by
  refine ⟨?_, ⟨by decide, by decide, by decide, by decide⟩, by decide, by decide⟩
  match rs with
  | [] =>
    exact ⟨[], rfl, fun C hC => absurd hC (List.not_mem_nil C),
      fun C hC => absurd hC (List.not_mem_nil C),
      fun i hi => absurd hi (by simp), List.Pairwise.nil,
      fun C hC => absurd hC (List.not_mem_nil C),
      fun C hC => absurd hC (List.not_mem_nil C)⟩
  | [r] =>
    refine ⟨[[0]], ?_, ?_, ?_, ?_, ?_, ?_, ?_⟩
    · show [r] = [boundingRect [r] [0]]
      have : boundingRect [r] [0] = r := rfl
      rw [this]
    · intro C hC
      rw [List.mem_singleton] at hC
      subst hC
      simp
    · intro C hC
      rw [List.mem_singleton] at hC
      subst hC
      refine ⟨0, by simp, ?_⟩
      intro j
      rw [List.mem_singleton]
      constructor
      · rintro rfl
        exact Relation.ReflTransGen.refl
      · intro hj
        exact (reach_pair_eq hj).symm
    · intro i hi
      simp only [List.length_singleton] at hi
      interval_cases i
      exact ⟨[0], List.mem_singleton_self _, List.mem_singleton_self _⟩
    · exact List.pairwise_singleton _ _
    · intro C hC a ha
      exact boundingRect_bounds [r] C a ha
    · intro C hC
      rw [List.mem_singleton] at hC
      subst hC
      exact boundingRect_attained [r] [0] (by simp)
  | r1 :: r2 :: rtl =>
    have hmerge : merge_overlapping_rectangles (r1 :: r2 :: rtl) =
        mergeLoop (r1 :: r2 :: rtl) (nbrs (r1 :: r2 :: rtl))
          (List.range (r1 :: r2 :: rtl).length)
          (List.replicate (r1 :: r2 :: rtl).length false) := by
      unfold merge_overlapping_rectangles
      rw [if_neg (by simp), if_neg (by simp)]
    obtain ⟨comps, h1, h2, h3, h4⟩ := mergeLoop_spec (r1 :: r2 :: rtl)
      (List.range (r1 :: r2 :: rtl).length)
      (List.replicate (r1 :: r2 :: rtl).length false)
      (by rw [List.length_replicate])
      (by
        intro j k hj hjk
        rw [replicate_false_getD] at hj
        split at hj
        · cases hj
        · exact absurd hjk.1 (by omega))
    refine ⟨comps, by rw [hmerge, h1], ?_, ?_, ?_, h4, ?_, ?_⟩
    · intro C hC
      obtain ⟨r, _, _, hr3⟩ := h2 C hC
      intro hnil
      have := (hr3 r).2 Relation.ReflTransGen.refl
      rw [hnil] at this
      cases this
    · intro C hC
      obtain ⟨r, _, hr2, hr3⟩ := h2 C hC
      exact ⟨r, hr2, hr3⟩
    · intro i hi
      exact h3 i (List.mem_range.2 hi)
        (by rw [replicate_false_getD, if_pos hi])
    · intro C hC a ha
      exact boundingRect_bounds _ C a ha
    · intro C hC
      obtain ⟨r, _, _, hr3⟩ := h2 C hC
      refine boundingRect_attained _ C ?_
      intro hnil
      have := (hr3 r).2 Relation.ReflTransGen.refl
      rw [hnil] at this
      cases this
